import Mathlib

/-!
Verification development for the pulse compiler front end
(`src/lexer/tokenizer.cpp`, `src/parser/parser.cpp`, `src/compiler/compiler.cpp`
and the headers `token.hpp`, `ast.hpp`, `parser.hpp`, `compiler.hpp`).

The C++ sources are shallowly embedded: every C++ method becomes a Lean
function of the same name over an explicit state record, machine strings
become `List Char`, `size_t` cursors become `Nat`, thrown `std::runtime_error`
exceptions become `Except.error`, and unbounded C++ recursion or loops whose
bound is not structural become functions over an explicit `Nat` recursion
budget (fuel), so that every definition is executable inside the kernel.
-/

namespace Pulse

/-! ## `<cctype>` character classification (C locale), as used by the tokenizer -/

/-- C `isspace`: space, tab, newline, vertical tab, form feed, carriage return. -/
def isSpaceC (c : Char) : Bool :=
  c = ' ' || c = '\t' || c = '\n' || c = '\x0b' || c = '\x0c' || c = '\r'

/-- C `isdigit`. -/
def isDigitC (c : Char) : Bool :=
  '0' ≤ c && c ≤ '9'

/-- C `isalpha` (C locale). -/
def isAlphaC (c : Char) : Bool :=
  ('a' ≤ c && c ≤ 'z') || ('A' ≤ c && c ≤ 'Z')

/-- C `isalnum` (C locale). -/
def isAlnumC (c : Char) : Bool :=
  isAlphaC c || isDigitC c

/-! ## `include/lexer/token.hpp` -/

/-- `enum class TokenType` from `token.hpp`, in declaration order. -/
inductive TokenType where
  | IDENTIFIER | STRING | INTEGER | FLOAT | BOOLEAN | NONE
  | PLUS | MINUS | MULTIPLY | DIVIDE | FLOOR_DIVIDE | MODULO | POWER
  | EQUAL | NOT_EQUAL | LESS | LESS_EQUAL | GREATER | GREATER_EQUAL
  | AND | OR | NOT
  | ASSIGN
  | LPAREN | RPAREN | LBRACKET | RBRACKET | LBRACE | RBRACE | COMMA | COLON | DOT
  | IF | ELIF | ELSE | WHILE | FOR | IN | DEF | CLASS | RETURN | IMPORT | AS
  | MATCH | ASYNC | AWAIT
  | INDENT | DEDENT | NEWLINE | EOF_TOKEN
  | COMMENT
deriving DecidableEq, Repr

/-- `std::variant<std::string, int64_t, double, bool, std::monostate>`, the
`value` member of `Token`.  A `double` produced by `std::stod` is kept as the
raw scanned text: no claim inspects a float payload, and IEEE rounding is
outside this embedding. -/
inductive TokenValue where
  | monostate
  | str (s : List Char)
  | int (n : Int)
  | float (raw : List Char)
  | boolean (b : Bool)
deriving DecidableEq, Repr

/-- `struct Token` from `token.hpp`. -/
structure Token where
  type : TokenType
  lexeme : List Char
  value : TokenValue
  line : Nat
  column : Nat
deriving DecidableEq, Repr

/-! ## `src/lexer/tokenizer.cpp` — class `Tokenizer`

The private members of `Tokenizer` form the state record below.  The C++
`std::vector<size_t> indent_stack` is stored here with its `back()` (top) as
the list head: `push_back` is cons, `pop_back` is tail, `back()` is `headD`. -/

structure TokState where
  source : List Char
  current : Nat
  start : Nat
  line : Nat
  column : Nat
  indent_stack : List Nat
deriving DecidableEq, Repr

namespace TokState

/-- `isAtEnd()`. -/
def isAtEnd (st : TokState) : Bool :=
  st.source.length ≤ st.current

/-- `peek()`: `source[current]`, `'\0'` at end. -/
def peek (st : TokState) : Char :=
  st.source.getD st.current '\x00'

/-- `peekNext()`. -/
def peekNext (st : TokState) : Char :=
  st.source.getD (st.current + 1) '\x00'

/-- The state change of `advance()`: consume one character, updating
`line`/`column`; no movement at end of input.  The character `advance()`
returns is `peek` of the pre-state. -/
def advance (st : TokState) : TokState :=
  if st.isAtEnd then st
  else
    let c := st.peek
    { st with
      current := st.current + 1
      line := if c = '\n' then st.line + 1 else st.line
      column := if c = '\n' then 0 else st.column + 1 }

/-- The test of `match(expected)`. -/
def matchesB (expected : Char) (st : TokState) : Bool :=
  !st.isAtEnd && st.peek = expected

/-- The state change of `match(expected)`: on success `current++; column++`
(`match` bumps `column` without the newline bookkeeping of `advance`). -/
def match1 (expected : Char) (st : TokState) : TokState :=
  if st.matchesB expected then
    { st with current := st.current + 1, column := st.column + 1 }
  else st

end TokState

/-- `advance()` applied `n` times. -/
def advanceN : Nat → TokState → TokState
  | 0, st => st
  | n + 1, st => advanceN n st.advance

/-- A loop `while (!isAtEnd() && p(peek())) advance();`: it consumes exactly
the maximal run of characters after `current` satisfying `p`. -/
def advanceWhile (p : Char → Bool) (st : TokState) : TokState :=
  advanceN ((st.source.drop st.current).takeWhile p).length st

/-- `skipWhitespace()`: horizontal whitespace only, newlines excluded. -/
def skipWhitespace (st : TokState) : TokState :=
  advanceWhile (fun c => isSpaceC c && !(c = '\n')) st

/-- `skipComment()`: skip to end of line. -/
def skipComment (st : TokState) : TokState :=
  advanceWhile (fun c => !(c = '\n')) st

/-- `makeToken`: lexeme is `source.substr(start, current - start)`. -/
def mkLexeme (st : TokState) : List Char :=
  (st.source.drop st.start).take (st.current - st.start)

/-- `makeToken`: column is `column - (current - start)` in `size_t`
arithmetic.  Truncated subtraction stands in for the unsigned wraparound: the
two differ only for a token spanning a newline (a multi-line string), and no
claim observes column values. -/
def mkColumn (st : TokState) : Nat :=
  st.column - (st.current - st.start)

/-- The `makeToken` family (one C++ overload per payload). -/
def makeToken (ty : TokenType) (v : TokenValue) (st : TokState) : Token :=
  ⟨ty, mkLexeme st, v, st.line, mkColumn st⟩

/-- The characters `Tokenizer::string()`'s scan loop consumes after the
opening quote: everything up to the closing quote, a backslash always
consuming the following character as well. -/
def stringSpan (quote : Char) : List Char → Nat
  | [] => 0
  | c :: rest =>
    if c = quote then 0
    else if c = '\\' then
      match rest with
      | [] => 1
      | _ :: rest2 => 2 + stringSpan quote rest2
    else 1 + stringSpan quote rest

/-- `Tokenizer::string()`.  On entry `current = start` sits on the opening
quote.  The stored value is `source.substr(start + 1, current - start - 2)`:
the raw characters between the quotes, escapes untranslated. -/
def scanString (st : TokState) : Except String (Token × TokState) :=
  let quote := st.peek
  let st1 := st.advance
  let st2 := advanceN (stringSpan quote (st1.source.drop st1.current)) st1
  if st2.isAtEnd then
    .error ("Unterminated string at line " ++ toString st2.line)
  else
    let st3 := st2.advance
    let value := (st3.source.drop (st3.start + 1)).take (st3.current - st3.start - 2)
    .ok (makeToken .STRING (.str value) st3, st3)

/-- Decimal digits to a number (`std::stoll` on the all-digit scanned text). -/
def natOfDigits (l : List Char) : Nat :=
  l.foldl (fun a c => a * 10 + (c.toNat - 48)) 0

/-- `Tokenizer::number()`.  On entry `current = start` sits on the first
digit.  `std::stoll` raises `std::out_of_range` past `int64` range; `std::stod`
on the scanned digit form is modelled as total (its payload is kept as raw
text and never inspected). -/
def scanNumber (st : TokState) : Except String (Token × TokState) :=
  let st1 := advanceWhile isDigitC st
  if !st1.isAtEnd && st1.peek = '.' && isDigitC st1.peekNext then
    let st2 := st1.advance
    let st3 := advanceWhile isDigitC st2
    .ok (makeToken .FLOAT (.float (mkLexeme st3)) st3, st3)
  else
    let v := natOfDigits (mkLexeme st1)
    if v ≤ 2 ^ 63 - 1 then
      .ok (makeToken .INTEGER (.int v) st1, st1)
    else
      .error "stoll: out of range"

/-- The static keyword table `Tokenizer::keywords`. -/
def keywords : List (List Char × TokenType) :=
  [("if".toList, .IF), ("elif".toList, .ELIF), ("else".toList, .ELSE),
   ("while".toList, .WHILE), ("for".toList, .FOR), ("in".toList, .IN),
   ("def".toList, .DEF), ("class".toList, .CLASS), ("return".toList, .RETURN),
   ("import".toList, .IMPORT), ("as".toList, .AS), ("match".toList, .MATCH),
   ("async".toList, .ASYNC), ("await".toList, .AWAIT), ("and".toList, .AND),
   ("or".toList, .OR), ("not".toList, .NOT)]

/-- `Tokenizer::identifier()`.  On entry `current = start` sits on the first
letter or underscore. -/
def scanIdentifier (st : TokState) : Token × TokState :=
  let st1 := advanceWhile (fun c => isAlnumC c || c = '_') st
  let text := mkLexeme st1
  match keywords.lookup text with
  | some ty => (makeToken ty .monostate st1, st1)
  | none =>
    if text = "True".toList then (makeToken .BOOLEAN (.boolean true) st1, st1)
    else if text = "False".toList then (makeToken .BOOLEAN (.boolean false) st1, st1)
    else if text = "None".toList then (makeToken .NONE .monostate st1, st1)
    else (makeToken .IDENTIFIER .monostate st1, st1)

/-- `Tokenizer::handleIndentation()`.  The leading-space count uses a
temporary cursor (`current` is not moved).  On a dedent the stack is popped
down to the target level, one `DEDENT` token is built per popped level, and
only `dedent_tokens[0]` is returned — the remaining tokens are discarded
(the source comment "others will be handled in subsequent calls"
notwithstanding, nothing buffers them). -/
def handleIndentation (st : TokState) : Except String (Token × TokState) :=
  let indentLevel := ((st.source.drop st.current).takeWhile (fun c => c = ' ')).length
  if indentLevel % 4 ≠ 0 then
    .error ("Invalid indentation at line " ++ toString st.line)
  else
    let spaces := indentLevel / 4
    if st.indent_stack = [] ∨ st.indent_stack.headD 0 < spaces then
      .ok (⟨.INDENT, [], .monostate, st.line, st.column⟩,
           { st with indent_stack := spaces :: st.indent_stack })
    else if spaces < st.indent_stack.headD 0 then
      let popped := st.indent_stack.dropWhile (fun v => spaces < v)
      if popped = [] ∨ ¬ popped.headD 0 = spaces then
        .error ("Invalid indentation at line " ++ toString st.line)
      else
        .ok (⟨.DEDENT, [], .monostate, st.line, st.column⟩,
             { st with indent_stack := popped })
    else
      .ok (⟨.NEWLINE, [], .monostate, st.line, st.column⟩, st)

/-- The arithmetic rows of the `switch` statement of `Tokenizer::nextToken()`
(`+ - * / %`), ending in the `default:` "Unexpected character" error.  The
C++ `switch` is one statement; it is split here into three groups of cases
(`operatorSwitch` → `cmpSwitch` → `arithSwitch`) purely so each group stays
small, with the "fall to the next group" position exactly where the next
`case` row begins. -/
def arithSwitch (c : Char) (st1 : TokState) : Except String (Token × TokState) :=
  if c = '+' then .ok (makeToken .PLUS .monostate st1, st1)
  else if c = '-' then .ok (makeToken .MINUS .monostate st1, st1)
  else if c = '*' then
    let st2 := st1.match1 '*'
    if st1.matchesB '*' then .ok (makeToken .POWER .monostate st2, st2)
    else .ok (makeToken .MULTIPLY .monostate st2, st2)
  else if c = '/' then
    let st2 := st1.match1 '/'
    if st1.matchesB '/' then .ok (makeToken .FLOOR_DIVIDE .monostate st2, st2)
    else .ok (makeToken .DIVIDE .monostate st2, st2)
  else if c = '%' then .ok (makeToken .MODULO .monostate st1, st1)
  else .error ("Unexpected character '" ++ String.mk [c] ++ "' at line " ++ toString st1.line)

/-- The comparison/assignment rows of the switch (`= ! < >`; a lone `!`
falls out of its `case` through `break` into the same "Unexpected
character" error as `default:`). -/
def cmpSwitch (c : Char) (st1 : TokState) : Except String (Token × TokState) :=
  if c = '=' then
    let st2 := st1.match1 '='
    if st1.matchesB '=' then .ok (makeToken .EQUAL .monostate st2, st2)
    else .ok (makeToken .ASSIGN .monostate st2, st2)
  else if c = '!' then
    let st2 := st1.match1 '='
    if st1.matchesB '=' then .ok (makeToken .NOT_EQUAL .monostate st2, st2)
    else .error ("Unexpected character '" ++ String.mk [c] ++ "' at line " ++ toString st1.line)
  else if c = '<' then
    let st2 := st1.match1 '='
    if st1.matchesB '=' then .ok (makeToken .LESS_EQUAL .monostate st2, st2)
    else .ok (makeToken .LESS .monostate st2, st2)
  else if c = '>' then
    let st2 := st1.match1 '='
    if st1.matchesB '=' then .ok (makeToken .GREATER_EQUAL .monostate st2, st2)
    else .ok (makeToken .GREATER .monostate st2, st2)
  else arithSwitch c st1

/-- The delimiter rows of the switch. -/
def operatorSwitch (c : Char) (st1 : TokState) : Except String (Token × TokState) :=
  if c = '(' then .ok (makeToken .LPAREN .monostate st1, st1)
  else if c = ')' then .ok (makeToken .RPAREN .monostate st1, st1)
  else if c = '[' then .ok (makeToken .LBRACKET .monostate st1, st1)
  else if c = ']' then .ok (makeToken .RBRACKET .monostate st1, st1)
  else if c = '{' then .ok (makeToken .LBRACE .monostate st1, st1)
  else if c = '}' then .ok (makeToken .RBRACE .monostate st1, st1)
  else if c = ',' then .ok (makeToken .COMMA .monostate st1, st1)
  else if c = '.' then .ok (makeToken .DOT .monostate st1, st1)
  else if c = ':' then .ok (makeToken .COLON .monostate st1, st1)
  else cmpSwitch c st1

/-- `Tokenizer::nextToken()`. -/
def nextToken (st0 : TokState) : Except String (Token × TokState) :=
  let sw := skipWhitespace st0
  if sw.isAtEnd then
    .ok (⟨.EOF_TOKEN, [], .monostate, sw.line, sw.column⟩, sw)
  else
    let stS : TokState := { sw with start := sw.current }
    let c := stS.peek
    let st1 := stS.advance
    if c = '\n' then handleIndentation st1
    else if c = '#' then
      let st2 := skipComment st1
      .ok (makeToken .COMMENT .monostate st2, st2)
    else if c = '"' ∨ c = '\'' then
      scanString { st1 with current := st1.start, column := st1.column - 1 }
    else if isDigitC c then
      scanNumber { st1 with current := st1.start, column := st1.column - 1 }
    else if isAlphaC c ∨ c = '_' then
      .ok (scanIdentifier { st1 with current := st1.start, column := st1.column - 1 })
    else operatorSwitch c st1

/-- The `Tokenizer` constructor: cursor at 0, line 1, column 0, indentation
stack holding the base level 0. -/
def initTokenizer (source : List Char) : TokState :=
  ⟨source, 0, 0, 1, 0, [0]⟩

/-- The do-while loop of `Tokenizer::tokenize()` with an explicit iteration
budget; `none` means the budget ran out (the sufficiency of the budget used
by `tokenize` is a theorem below). -/
def tokenizeN : Nat → TokState → Option (Except String (List Token))
  | 0, _ => none
  | fuel + 1, st =>
    match nextToken st with
    | .error e => some (.error e)
    | .ok (t, st1) =>
      if t.type = TokenType.EOF_TOKEN then some (.ok [t])
      else
        match tokenizeN fuel st1 with
        | none => none
        | some (.error e) => some (.error e)
        | some (.ok ts) => some (.ok (t :: ts))

/-- `Tokenizer::tokenize()`: every loop iteration either ends the stream
(EOF) or consumes at least one source character, so `length + 1` iterations
always suffice. -/
def tokenize (source : List Char) : Option (Except String (List Token)) :=
  tokenizeN (source.length + 1) (initTokenizer source)

/-! ## `include/parser/ast.hpp` — the AST node model

Each concrete node class becomes a constructor; `std::vector` members become
lists, the `LiteralExpression` value variant becomes one constructor per
payload arm. -/

/-- `BinaryExpression::Operator`. -/
inductive BinOp where
  | ADD | SUBTRACT | MULTIPLY | DIVIDE | FLOOR_DIVIDE | MODULO | POWER
  | EQUAL | NOT_EQUAL | LESS | LESS_EQUAL | GREATER | GREATER_EQUAL
  | AND | OR
deriving DecidableEq, Repr

/-- `UnaryExpression::Operator`. -/
inductive UnOp where
  | PLUS | MINUS | NOT
deriving DecidableEq, Repr

/-- The `Expression` class hierarchy of `ast.hpp`. -/
inductive Expr where
  | literalStr (s : List Char)
  | literalInt (n : Int)
  | literalFloat (raw : List Char)
  | literalBool (b : Bool)
  | literalNone
  | identE (name : List Char)
  | binary (op : BinOp) (left right : Expr)
  | unaryE (op : UnOp) (operand : Expr)
  | call (callee : Expr) (args : List Expr)
  | attribute (object : Expr) (name : List Char)
  | subscript (object : Expr) (index : Expr)
  | listE (elements : List Expr)
  | dictE (pairs : List (Expr × Expr))
  | tupleE (elements : List Expr)
deriving Repr

/-- The `Statement` class hierarchy of `ast.hpp`. -/
inductive Stmt where
  | assign (name : List Char) (value : Expr)
  | exprStmt (e : Expr)
  | ret (value : Option Expr)
  | ifS (branches : List (Expr × List Stmt)) (elseBody : List Stmt)
  | whileS (condition : Expr) (body : List Stmt)
  | forS (varName : List Char) (iterable : Expr) (body : List Stmt)
  | matchS (value : Expr) (cases : List (Expr × List Stmt))

/-- The `Declaration` class hierarchy of `ast.hpp`. -/
inductive Decl where
  | funcD (name : List Char) (parameters : List (List Char)) (body : List Stmt)
      (isAsync : Bool)
  | classD (name : List Char) (baseClass : List Char) (members : List Decl)
  | importD (moduleName : List Char) (aliasName : List Char)

/-- `class Program` of `ast.hpp`. -/
structure Program where
  declarations : List Decl
  statements : List Stmt

/-! ## `src/parser/parser.cpp` — class `Parser`

The parser's cursor state is the record below; the result of each parsing
method is a `PRes`: `ok` pairs the parsed node with the post-state, `fail`
is the `std::runtime_error` thrown by `Parser::error`, and `out` reports an
exhausted recursion budget (C++ recursion depth is unbounded; every Lean
parsing function spends one budget unit per call, and the concrete runs
below use budgets that are never exhausted). -/

structure PState where
  tokens : List Token
  current : Nat
deriving Repr

/-- Used only where C++ `tokens.back()` reads an empty vector (undefined
behavior there; unreachable through `tokenize`, which always emits EOF). -/
def dfltToken : Token :=
  ⟨.EOF_TOKEN, [], .monostate, 0, 0⟩

namespace PState

/-- `Parser::isAtEnd()`. -/
def isAtEnd (p : PState) : Bool :=
  p.tokens.length ≤ p.current

/-- `Parser::peek()`: `tokens[current]`, or `tokens.back()` at the end. -/
def peekT (p : PState) : Token :=
  if p.current < p.tokens.length then p.tokens.getD p.current dfltToken
  else p.tokens.getLastD dfltToken

/-- The state change of `Parser::advance()` (no movement at the end). -/
def advanceP (p : PState) : PState :=
  if p.isAtEnd then p else { p with current := p.current + 1 }

/-- `tokens[current - 1]`, the token just consumed. -/
def prevT (p : PState) : Token :=
  p.tokens.getD (p.current - 1) dfltToken

end PState

/-- `Parser::check(type)`. -/
def checkP (ty : TokenType) (p : PState) : Bool :=
  !p.isAtEnd && p.peekT.type = ty

/-- The test of `Parser::match(type)`. -/
def matchB (ty : TokenType) (p : PState) : Bool :=
  checkP ty p

/-- The state change of `Parser::match(type)`. -/
def matchP (ty : TokenType) (p : PState) : PState :=
  if checkP ty p then p.advanceP else p

/-- `Parser::error(token, message)`: the thrown message. -/
def errAt (t : Token) (msg : String) : String :=
  "Error at line " ++ toString t.line ++ ", column " ++ toString t.column ++ ": " ++ msg

/-- `Parser::consume(type, message)`. -/
def consumeP (ty : TokenType) (msg : String) (p : PState) : Except String PState :=
  if checkP ty p then .ok p.advanceP else .error (errAt p.peekT msg)

/-- Result of a parsing method: node and post-state, raised parse error, or
exhausted recursion budget. -/
inductive PRes (α : Type) where
  | ok (val : α) (st : PState)
  | fail (msg : String)
  | out
deriving Repr

namespace Parser

mutual

/-- `Parser::program()`: the top-level loop collecting declarations and
statements, transparently skipping INDENT/DEDENT/NEWLINE tokens.  (The C++
`else break` arm is unreachable: `statement()` never returns null.) -/
def program : Nat → PState → PRes Program
  | 0, _ => .out
  | fuel + 1, p =>
    if p.isAtEnd then .ok ⟨[], []⟩ p
    else if p.peekT.type = .INDENT then program fuel p.advanceP
    else if p.peekT.type = .DEDENT then program fuel p.advanceP
    else if p.peekT.type = .NEWLINE then program fuel p.advanceP
    else
      match declaration fuel p with
      | .fail m => .fail m
      | .out => .out
      | .ok (some d) p1 =>
        match program fuel p1 with
        | .ok prog p2 => .ok ⟨d :: prog.declarations, prog.statements⟩ p2
        | r => r
      | .ok none p1 =>
        match statement fuel p1 with
        | .fail m => .fail m
        | .out => .out
        | .ok s p2 =>
          match program fuel p2 with
          | .ok prog p3 => .ok ⟨prog.declarations, s :: prog.statements⟩ p3
          | r => r

/-- `Parser::declaration()`: `none` is the C++ `nullptr` (not a declaration
keyword; the caller tries `statement()`). -/
def declaration : Nat → PState → PRes (Option Decl)
  | 0, _ => .out
  | fuel + 1, p =>
    if matchB .IMPORT p then
      match importDeclaration fuel (matchP .IMPORT p) with
      | .ok d p1 => .ok (some d) p1
      | .fail m => .fail m
      | .out => .out
    else if matchB .DEF p then
      match functionDeclaration fuel (matchP .DEF p) with
      | .ok d p1 => .ok (some d) p1
      | .fail m => .fail m
      | .out => .out
    else if matchB .CLASS p then
      match classDeclaration fuel (matchP .CLASS p) with
      | .ok d p1 => .ok (some d) p1
      | .fail m => .fail m
      | .out => .out
    else .ok none p

/-- `Parser::statement()`: keyword dispatch, then the assignment lookahead
(consume the identifier, test for `=`, reset the cursor). -/
def statement : Nat → PState → PRes Stmt
  | 0, _ => .out
  | fuel + 1, p =>
    if matchB .IF p then ifStatement fuel (matchP .IF p)
    else if matchB .WHILE p then whileStatement fuel (matchP .WHILE p)
    else if matchB .FOR p then forStatement fuel (matchP .FOR p)
    else if matchB .MATCH p then matchStatement fuel (matchP .MATCH p)
    else if matchB .RETURN p then returnStatement fuel (matchP .RETURN p)
    else if p.peekT.type = .IDENTIFIER ∧ ¬ p.peekT.type = .EOF_TOKEN then
      if p.advanceP.peekT.type = .ASSIGN then assignmentStatement fuel p
      else expressionStatement fuel p
    else expressionStatement fuel p

/-- `Parser::expression()`. -/
def expression : Nat → PState → PRes Expr
  | 0, _ => .out
  | fuel + 1, p => logicalOr fuel p

/-- `Parser::logicalOr()`. -/
def logicalOr : Nat → PState → PRes Expr
  | 0, _ => .out
  | fuel + 1, p =>
    match logicalAnd fuel p with
    | .ok e p1 => orLoop fuel e p1
    | r => r

/-- The `while (match(OR))` loop of `Parser::logicalOr()`. -/
def orLoop : Nat → Expr → PState → PRes Expr
  | 0, _, _ => .out
  | fuel + 1, e, p =>
    if matchB .OR p then
      match logicalAnd fuel (matchP .OR p) with
      | .ok r p1 => orLoop fuel (.binary .OR e r) p1
      | r => r
    else .ok e p

/-- `Parser::logicalAnd()`. -/
def logicalAnd : Nat → PState → PRes Expr
  | 0, _ => .out
  | fuel + 1, p =>
    match equality fuel p with
    | .ok e p1 => andLoop fuel e p1
    | r => r

/-- The `while (match(AND))` loop of `Parser::logicalAnd()`. -/
def andLoop : Nat → Expr → PState → PRes Expr
  | 0, _, _ => .out
  | fuel + 1, e, p =>
    if matchB .AND p then
      match equality fuel (matchP .AND p) with
      | .ok r p1 => andLoop fuel (.binary .AND e r) p1
      | r => r
    else .ok e p

/-- `Parser::equality()`. -/
def equality : Nat → PState → PRes Expr
  | 0, _ => .out
  | fuel + 1, p =>
    match comparison fuel p with
    | .ok e p1 => eqLoop fuel e p1
    | r => r

/-- The `while (match(EQUAL) || match(NOT_EQUAL))` loop. -/
def eqLoop : Nat → Expr → PState → PRes Expr
  | 0, _, _ => .out
  | fuel + 1, e, p =>
    if matchB .EQUAL p then
      match comparison fuel (matchP .EQUAL p) with
      | .ok r p1 => eqLoop fuel (.binary .EQUAL e r) p1
      | r => r
    else if matchB .NOT_EQUAL p then
      match comparison fuel (matchP .NOT_EQUAL p) with
      | .ok r p1 => eqLoop fuel (.binary .NOT_EQUAL e r) p1
      | r => r
    else .ok e p

/-- `Parser::comparison()`. -/
def comparison : Nat → PState → PRes Expr
  | 0, _ => .out
  | fuel + 1, p =>
    match term fuel p with
    | .ok e p1 => cmpLoop fuel e p1
    | r => r

/-- The comparison-operator loop (`<`, `<=`, `>`, `>=`). -/
def cmpLoop : Nat → Expr → PState → PRes Expr
  | 0, _, _ => .out
  | fuel + 1, e, p =>
    if matchB .LESS p then
      match term fuel (matchP .LESS p) with
      | .ok r p1 => cmpLoop fuel (.binary .LESS e r) p1
      | r => r
    else if matchB .LESS_EQUAL p then
      match term fuel (matchP .LESS_EQUAL p) with
      | .ok r p1 => cmpLoop fuel (.binary .LESS_EQUAL e r) p1
      | r => r
    else if matchB .GREATER p then
      match term fuel (matchP .GREATER p) with
      | .ok r p1 => cmpLoop fuel (.binary .GREATER e r) p1
      | r => r
    else if matchB .GREATER_EQUAL p then
      match term fuel (matchP .GREATER_EQUAL p) with
      | .ok r p1 => cmpLoop fuel (.binary .GREATER_EQUAL e r) p1
      | r => r
    else .ok e p

/-- `Parser::term()`: additive level. -/
def term : Nat → PState → PRes Expr
  | 0, _ => .out
  | fuel + 1, p =>
    match factor fuel p with
    | .ok e p1 => addLoop fuel e p1
    | r => r

/-- The `+`/`-` loop of `Parser::term()`. -/
def addLoop : Nat → Expr → PState → PRes Expr
  | 0, _, _ => .out
  | fuel + 1, e, p =>
    if matchB .PLUS p then
      match factor fuel (matchP .PLUS p) with
      | .ok r p1 => addLoop fuel (.binary .ADD e r) p1
      | r => r
    else if matchB .MINUS p then
      match factor fuel (matchP .MINUS p) with
      | .ok r p1 => addLoop fuel (.binary .SUBTRACT e r) p1
      | r => r
    else .ok e p

/-- `Parser::factor()`: multiplicative level. -/
def factor : Nat → PState → PRes Expr
  | 0, _ => .out
  | fuel + 1, p =>
    match power fuel p with
    | .ok e p1 => mulLoop fuel e p1
    | r => r

/-- The `*`/`/`/`//`/`%` loop of `Parser::factor()`. -/
def mulLoop : Nat → Expr → PState → PRes Expr
  | 0, _, _ => .out
  | fuel + 1, e, p =>
    if matchB .MULTIPLY p then
      match power fuel (matchP .MULTIPLY p) with
      | .ok r p1 => mulLoop fuel (.binary .MULTIPLY e r) p1
      | r => r
    else if matchB .DIVIDE p then
      match power fuel (matchP .DIVIDE p) with
      | .ok r p1 => mulLoop fuel (.binary .DIVIDE e r) p1
      | r => r
    else if matchB .FLOOR_DIVIDE p then
      match power fuel (matchP .FLOOR_DIVIDE p) with
      | .ok r p1 => mulLoop fuel (.binary .FLOOR_DIVIDE e r) p1
      | r => r
    else if matchB .MODULO p then
      match power fuel (matchP .MODULO p) with
      | .ok r p1 => mulLoop fuel (.binary .MODULO e r) p1
      | r => r
    else .ok e p

/-- `Parser::power()`: a `while (match(POWER))` loop folding to the LEFT,
exactly as written in the source. -/
def power : Nat → PState → PRes Expr
  | 0, _ => .out
  | fuel + 1, p =>
    match unary fuel p with
    | .ok e p1 => powLoop fuel e p1
    | r => r

/-- The `**` loop of `Parser::power()`. -/
def powLoop : Nat → Expr → PState → PRes Expr
  | 0, _, _ => .out
  | fuel + 1, e, p =>
    if matchB .POWER p then
      match unary fuel (matchP .POWER p) with
      | .ok r p1 => powLoop fuel (.binary .POWER e r) p1
      | r => r
    else .ok e p

/-- `Parser::unary()`: prefix `-`/`not`; otherwise it calls `primary()`
directly — `Parser::call()` is not in the chain. -/
def unary : Nat → PState → PRes Expr
  | 0, _ => .out
  | fuel + 1, p =>
    if matchB .MINUS p then
      match unary fuel (matchP .MINUS p) with
      | .ok e p1 => .ok (.unaryE .MINUS e) p1
      | r => r
    else if matchB .NOT p then
      match unary fuel (matchP .NOT p) with
      | .ok e p1 => .ok (.unaryE .NOT e) p1
      | r => r
    else primary fuel p

/-- `Parser::primary()`.  The source first tests `TokenType::FALSE` and
`TokenType::TRUE`, which do not exist in the `TokenType` enumeration of
`token.hpp`; no token can carry them, so those two dead tests are omitted.
A literal token whose payload has the wrong variant arm falls through to the
following tests with the token already consumed, as in the source. -/
def primary : Nat → PState → PRes Expr
  | 0, _ => .out
  | fuel + 1, p =>
    if matchB .NONE p then .ok .literalNone (matchP .NONE p)
    else primaryInt fuel p

/-- The `match(INTEGER)` step of `Parser::primary()`. -/
def primaryInt : Nat → PState → PRes Expr
  | 0, _ => .out
  | fuel + 1, p =>
    if matchB .INTEGER p then
      let p1 := matchP .INTEGER p
      match p1.prevT.value with
      | .int n => .ok (.literalInt n) p1
      | _ => primaryFloat fuel p1
    else primaryFloat fuel p

/-- The `match(FLOAT)` step of `Parser::primary()`. -/
def primaryFloat : Nat → PState → PRes Expr
  | 0, _ => .out
  | fuel + 1, p =>
    if matchB .FLOAT p then
      let p1 := matchP .FLOAT p
      match p1.prevT.value with
      | .float raw => .ok (.literalFloat raw) p1
      | _ => primaryString fuel p1
    else primaryString fuel p

/-- The `match(STRING)` step of `Parser::primary()`. -/
def primaryString : Nat → PState → PRes Expr
  | 0, _ => .out
  | fuel + 1, p =>
    if matchB .STRING p then
      let p1 := matchP .STRING p
      match p1.prevT.value with
      | .str s => .ok (.literalStr s) p1
      | _ => primaryTail fuel p1
    else primaryTail fuel p

/-- The identifier, parenthesis, list and dict steps of `Parser::primary()`,
ending in the `Expect expression.` parse error. -/
def primaryTail : Nat → PState → PRes Expr
  | 0, _ => .out
  | fuel + 1, p =>
    if matchB .IDENTIFIER p then
      let p1 := matchP .IDENTIFIER p
      .ok (.identE p1.prevT.lexeme) p1
    else if matchB .LPAREN p then
      match expression fuel (matchP .LPAREN p) with
      | .ok e p1 =>
        match consumeP .RPAREN "Expect ')' after expression." p1 with
        | .ok p2 => .ok e p2
        | .error m => .fail m
      | r => r
    else if matchB .LBRACKET p then listExpression fuel (matchP .LBRACKET p)
    else if matchB .LBRACE p then dictExpression fuel (matchP .LBRACE p)
    else .fail (errAt p.peekT "Expect expression.")

/-- `Parser::call()`: the postfix chain over `primary()`.  Dead code in the
source — `unary()` never calls it — embedded here as written. -/
def callChain : Nat → PState → PRes Expr
  | 0, _ => .out
  | fuel + 1, p =>
    match primary fuel p with
    | .ok e p1 => postfixLoop fuel e p1
    | r => r

/-- The `while (true)` postfix loop of `Parser::call()`. -/
def postfixLoop : Nat → Expr → PState → PRes Expr
  | 0, _, _ => .out
  | fuel + 1, e, p =>
    if matchB .LPAREN p then
      match finishCall fuel e (matchP .LPAREN p) with
      | .ok e1 p1 => postfixLoop fuel e1 p1
      | r => r
    else if matchB .DOT p then
      match consumeP .IDENTIFIER "Expect property name after '.'." (matchP .DOT p) with
      | .ok p1 => postfixLoop fuel (.attribute e p1.prevT.lexeme) p1
      | .error m => .fail m
    else if matchB .LBRACKET p then
      match expression fuel (matchP .LBRACKET p) with
      | .ok ix p1 =>
        match consumeP .RBRACKET "Expect ']' after index." p1 with
        | .ok p2 => postfixLoop fuel (.subscript e ix) p2
        | .error m => .fail m
      | r => r
    else .ok e p

/-- `Parser::finishCall(callee)`. -/
def finishCall : Nat → Expr → PState → PRes Expr
  | 0, _, _ => .out
  | fuel + 1, callee, p =>
    if !checkP .RPAREN p then
      match argsLoop fuel p with
      | .ok args p1 =>
        match consumeP .RPAREN "Expect ')' after arguments." p1 with
        | .ok p2 => .ok (.call callee args) p2
        | .error m => .fail m
      | .fail m => .fail m
      | .out => .out
    else
      match consumeP .RPAREN "Expect ')' after arguments." p with
      | .ok p1 => .ok (.call callee []) p1
      | .error m => .fail m

/-- The argument `do … while (match(COMMA))` loop of `finishCall`. -/
def argsLoop : Nat → PState → PRes (List Expr)
  | 0, _ => .out
  | fuel + 1, p =>
    match expression fuel p with
    | .ok e p1 =>
      if matchB .COMMA p1 then
        match argsLoop fuel (matchP .COMMA p1) with
        | .ok es p2 => .ok (e :: es) p2
        | r => r
      else .ok [e] p1
    | .fail m => .fail m
    | .out => .out

/-- `Parser::ifStatement()` (the `if` keyword is already consumed).  As in
the source, the `':'` is consumed BEFORE the condition is parsed, for the
`if` header and for every `elif` header. -/
def ifStatement : Nat → PState → PRes Stmt
  | 0, _ => .out
  | fuel + 1, p =>
    match consumeP .COLON "Expect ':' after if condition." p with
    | .error m => .fail m
    | .ok p1 =>
      match expression fuel p1 with
      | .fail m => .fail m
      | .out => .out
      | .ok cond p2 =>
        match block fuel p2 with
        | .fail m => .fail m
        | .out => .out
        | .ok thenB p3 =>
          match elifLoop fuel [(cond, thenB)] p3 with
          | .fail m => .fail m
          | .out => .out
          | .ok branches p4 =>
            if matchB .ELSE p4 then
              match consumeP .COLON "Expect ':' after else." (matchP .ELSE p4) with
              | .error m => .fail m
              | .ok p5 =>
                match block fuel p5 with
                | .ok elseB p6 => .ok (.ifS branches elseB) p6
                | .fail m => .fail m
                | .out => .out
            else .ok (.ifS branches []) p4

/-- The `while (match(ELIF))` loop of `Parser::ifStatement()`. -/
def elifLoop : Nat → List (Expr × List Stmt) → PState → PRes (List (Expr × List Stmt))
  | 0, _, _ => .out
  | fuel + 1, acc, p =>
    if matchB .ELIF p then
      match consumeP .COLON "Expect ':' after elif condition." (matchP .ELIF p) with
      | .error m => .fail m
      | .ok p1 =>
        match expression fuel p1 with
        | .fail m => .fail m
        | .out => .out
        | .ok cond p2 =>
          match block fuel p2 with
          | .ok body p3 => elifLoop fuel (acc ++ [(cond, body)]) p3
          | .fail m => .fail m
          | .out => .out
    else .ok acc p

/-- `Parser::whileStatement()`. -/
def whileStatement : Nat → PState → PRes Stmt
  | 0, _ => .out
  | fuel + 1, p =>
    match expression fuel p with
    | .fail m => .fail m
    | .out => .out
    | .ok cond p1 =>
      match consumeP .COLON "Expect ':' after while condition." p1 with
      | .error m => .fail m
      | .ok p2 =>
        match block fuel p2 with
        | .ok body p3 => .ok (.whileS cond body) p3
        | .fail m => .fail m
        | .out => .out

/-- `Parser::forStatement()`. -/
def forStatement : Nat → PState → PRes Stmt
  | 0, _ => .out
  | fuel + 1, p =>
    match consumeP .IDENTIFIER "Expect variable name after 'for'." p with
    | .error m => .fail m
    | .ok p1 =>
      let varName := p1.prevT.lexeme
      match consumeP .IN "Expect 'in' after variable name." p1 with
      | .error m => .fail m
      | .ok p2 =>
        match expression fuel p2 with
        | .fail m => .fail m
        | .out => .out
        | .ok iter p3 =>
          match consumeP .COLON "Expect ':' after iterable." p3 with
          | .error m => .fail m
          | .ok p4 =>
            match block fuel p4 with
            | .ok body p5 => .ok (.forS varName iter body) p5
            | .fail m => .fail m
            | .out => .out

/-- `Parser::matchStatement()`. -/
def matchStatement : Nat → PState → PRes Stmt
  | 0, _ => .out
  | fuel + 1, p =>
    match expression fuel p with
    | .fail m => .fail m
    | .out => .out
    | .ok v p1 =>
      match consumeP .COLON "Expect ':' after match value." p1 with
      | .error m => .fail m
      | .ok p2 =>
        match casesLoop fuel p2 with
        | .ok cs p3 => .ok (.matchS v cs) p3
        | .fail m => .fail m
        | .out => .out

/-- The case loop of `Parser::matchStatement()`. -/
def casesLoop : Nat → PState → PRes (List (Expr × List Stmt))
  | 0, _ => .out
  | fuel + 1, p =>
    if !p.isAtEnd && !checkP .DEDENT p then
      match expression fuel p with
      | .fail m => .fail m
      | .out => .out
      | .ok pat p1 =>
        match consumeP .COLON "Expect ':' after pattern." p1 with
        | .error m => .fail m
        | .ok p2 =>
          match block fuel p2 with
          | .fail m => .fail m
          | .out => .out
          | .ok body p3 =>
            match casesLoop fuel p3 with
            | .ok cs p4 => .ok ((pat, body) :: cs) p4
            | r => r
    else .ok [] p

/-- `Parser::returnStatement()`. -/
def returnStatement : Nat → PState → PRes Stmt
  | 0, _ => .out
  | fuel + 1, p =>
    if !checkP .NEWLINE p && !checkP .DEDENT p then
      match expression fuel p with
      | .ok v p1 => .ok (.ret (some v)) p1
      | .fail m => .fail m
      | .out => .out
    else .ok (.ret none) p

/-- `Parser::assignmentStatement()`. -/
def assignmentStatement : Nat → PState → PRes Stmt
  | 0, _ => .out
  | fuel + 1, p =>
    match consumeP .IDENTIFIER "Expect variable name." p with
    | .error m => .fail m
    | .ok p1 =>
      let name := p1.prevT.lexeme
      match consumeP .ASSIGN "Expect '=' after variable name." p1 with
      | .error m => .fail m
      | .ok p2 =>
        match expression fuel p2 with
        | .ok v p3 => .ok (.assign name v) p3
        | .fail m => .fail m
        | .out => .out

/-- `Parser::expressionStatement()`. -/
def expressionStatement : Nat → PState → PRes Stmt
  | 0, _ => .out
  | fuel + 1, p =>
    match expression fuel p with
    | .ok e p1 => .ok (.exprStmt e) p1
    | .fail m => .fail m
    | .out => .out

/-- `Parser::functionDeclaration()` (the `def` keyword is already consumed). -/
def functionDeclaration : Nat → PState → PRes Decl
  | 0, _ => .out
  | fuel + 1, p =>
    match consumeP .IDENTIFIER "Expect function name." p with
    | .error m => .fail m
    | .ok p1 =>
      let name := p1.prevT.lexeme
      match consumeP .LPAREN "Expect '(' after function name." p1 with
      | .error m => .fail m
      | .ok p2 =>
        match
          (if !checkP .RPAREN p2 then paramsLoop fuel p2 else .ok [] p2) with
        | .fail m => .fail m
        | .out => .out
        | .ok params p3 =>
          match consumeP .RPAREN "Expect ')' after parameters." p3 with
          | .error m => .fail m
          | .ok p4 =>
            match consumeP .COLON "Expect ':' after function parameters." p4 with
            | .error m => .fail m
            | .ok p5 =>
              match block fuel p5 with
              | .ok body p6 => .ok (.funcD name params body false) p6
              | .fail m => .fail m
              | .out => .out

/-- The parameter `do … while (match(COMMA))` loop. -/
def paramsLoop : Nat → PState → PRes (List (List Char))
  | 0, _ => .out
  | fuel + 1, p =>
    match consumeP .IDENTIFIER "Expect parameter name." p with
    | .error m => .fail m
    | .ok p1 =>
      let name := p1.prevT.lexeme
      if matchB .COMMA p1 then
        match paramsLoop fuel (matchP .COMMA p1) with
        | .ok names p2 => .ok (name :: names) p2
        | r => r
      else .ok [name] p1

/-- `Parser::classDeclaration()` (the `class` keyword is already consumed). -/
def classDeclaration : Nat → PState → PRes Decl
  | 0, _ => .out
  | fuel + 1, p =>
    match consumeP .IDENTIFIER "Expect class name." p with
    | .error m => .fail m
    | .ok p1 =>
      let name := p1.prevT.lexeme
      match
        ((if matchB .LPAREN p1 then
          match consumeP .IDENTIFIER "Expect base class name." (matchP .LPAREN p1) with
          | .error m => .fail m
          | .ok p2 =>
            match consumeP .RPAREN "Expect ')' after base class." p2 with
            | .error m => .fail m
            | .ok p3 => .ok p2.prevT.lexeme p3
        else .ok [] p1) : PRes (List Char)) with
      | .fail m => .fail m
      | .out => .out
      | .ok base p4 =>
        match consumeP .COLON "Expect ':' after class declaration." p4 with
        | .error m => .fail m
        | .ok p5 =>
          match membersLoop fuel p5 with
          | .ok members p6 => .ok (.classD name base members) p6
          | .fail m => .fail m
          | .out => .out

/-- The member loop of `Parser::classDeclaration()`. -/
def membersLoop : Nat → PState → PRes (List Decl)
  | 0, _ => .out
  | fuel + 1, p =>
    if !p.isAtEnd && !checkP .DEDENT p then
      match declaration fuel p with
      | .fail m => .fail m
      | .out => .out
      | .ok none p1 => .ok [] p1
      | .ok (some d) p1 =>
        match membersLoop fuel p1 with
        | .ok ds p2 => .ok (d :: ds) p2
        | r => r
    else .ok [] p

/-- `Parser::importDeclaration()` (the `import` keyword is already consumed). -/
def importDeclaration : Nat → PState → PRes Decl
  | 0, _ => .out
  | _fuel + 1, p =>
    match consumeP .IDENTIFIER "Expect module name after 'import'." p with
    | .error m => .fail m
    | .ok p1 =>
      let moduleName := p1.prevT.lexeme
      if matchB .AS p1 then
        match consumeP .IDENTIFIER "Expect alias name after 'as'." (matchP .AS p1) with
        | .error m => .fail m
        | .ok p2 => .ok (.importD moduleName p2.prevT.lexeme) p2
      else .ok (.importD moduleName []) p1

/-- `Parser::listExpression()` (the `[` is already consumed). -/
def listExpression : Nat → PState → PRes Expr
  | 0, _ => .out
  | fuel + 1, p =>
    match
      (if !checkP .RBRACKET p then elemsLoop fuel p else .ok [] p) with
    | .fail m => .fail m
    | .out => .out
    | .ok elems p1 =>
      match consumeP .RBRACKET "Expect ']' after list elements." p1 with
      | .error m => .fail m
      | .ok p2 => .ok (.listE elems) p2

/-- The element `do … while (match(COMMA))` loop of `listExpression` (also the
shape of `tupleExpression`'s loop). -/
def elemsLoop : Nat → PState → PRes (List Expr)
  | 0, _ => .out
  | fuel + 1, p =>
    match expression fuel p with
    | .fail m => .fail m
    | .out => .out
    | .ok e p1 =>
      if matchB .COMMA p1 then
        match elemsLoop fuel (matchP .COMMA p1) with
        | .ok es p2 => .ok (e :: es) p2
        | r => r
      else .ok [e] p1

/-- `Parser::dictExpression()` (the `{` is already consumed). -/
def dictExpression : Nat → PState → PRes Expr
  | 0, _ => .out
  | fuel + 1, p =>
    match
      (if !checkP .RBRACE p then pairsLoop fuel p else .ok [] p) with
    | .fail m => .fail m
    | .out => .out
    | .ok pairs p1 =>
      match consumeP .RBRACE "Expect '\x7d' after dictionary pairs." p1 with
      | .error m => .fail m
      | .ok p2 => .ok (.dictE pairs) p2

/-- The key/value `do … while (match(COMMA))` loop of `dictExpression`. -/
def pairsLoop : Nat → PState → PRes (List (Expr × Expr))
  | 0, _ => .out
  | fuel + 1, p =>
    match expression fuel p with
    | .fail m => .fail m
    | .out => .out
    | .ok k p1 =>
      match consumeP .COLON "Expect ':' after key." p1 with
      | .error m => .fail m
      | .ok p2 =>
        match expression fuel p2 with
        | .fail m => .fail m
        | .out => .out
        | .ok v p3 =>
          if matchB .COMMA p3 then
            match pairsLoop fuel (matchP .COMMA p3) with
            | .ok ps p4 => .ok ((k, v) :: ps) p4
            | r => r
          else .ok [(k, v)] p3

/-- `Parser::tupleExpression()` — never called by any other method of the
source; embedded as written. -/
def tupleExpression : Nat → PState → PRes Expr
  | 0, _ => .out
  | fuel + 1, p =>
    match
      (if !checkP .RPAREN p then elemsLoop fuel p else .ok [] p) with
    | .fail m => .fail m
    | .out => .out
    | .ok elems p1 =>
      match consumeP .RPAREN "Expect ')' after tuple elements." p1 with
      | .error m => .fail m
      | .ok p2 => .ok (.tupleE elems) p2

/-- `Parser::block()`: statements until end of input or a DEDENT (which is
left unconsumed).  Nothing here skips INDENT or NEWLINE tokens.  (The C++
`else break` arm is unreachable: `statement()` never returns null.) -/
def block : Nat → PState → PRes (List Stmt)
  | 0, _ => .out
  | fuel + 1, p =>
    if !p.isAtEnd && !checkP .DEDENT p then
      match statement fuel p with
      | .fail m => .fail m
      | .out => .out
      | .ok s p1 =>
        match block fuel p1 with
        | .ok ss p2 => .ok (s :: ss) p2
        | r => r
    else .ok [] p

end

end Parser

/-! ## `src/compiler/compiler.cpp` — class `Compiler`

The LLVM surface actually touched by `compiler.cpp` is embedded explicitly:
a `Value` is a typed constant, a global string, a function argument or an
instruction result; the `IRBuilder` appends instructions to the entry block
of the function holding the current insertion point.  Each instruction that
produces a value records the fresh id it defines (SSA style).  `compiler.cpp`
never creates a second basic block and never creates a branch instruction,
so a function body is one instruction list and the instruction type below
has no branch constructor.  `llvm::verifyModule` is an external library
call, outside this embedding. -/

namespace Compiler

/-- The LLVM types reached by `compiler.cpp`. -/
inductive LTy where
  | i1 | i32 | i64 | f64 | ptr
deriving DecidableEq, Repr

/-- `llvm::Value*` as used by the compiler. -/
inductive LVal where
  | constInt (ty : LTy) (n : Int)
  | constFP (raw : List Char)
  | globalStr (s : List Char)
  | arg (fIdx : Nat) (idx : Nat)
  | instr (id : Nat) (ty : LTy)
deriving DecidableEq, Repr

/-- `Value::getType()` as needed by `CreateAlloca(value->getType(), …)`. -/
def LVal.tyOf : LVal → LTy
  | .constInt ty _ => ty
  | .constFP _ => .f64
  | .globalStr _ => .ptr
  | .arg _ _ => .i64
  | .instr _ ty => ty

/-- The arithmetic `IRBuilder` calls made by `compileBinaryExpression`. -/
inductive ArithOp where
  | add | sub | mul | sdiv | srem
deriving DecidableEq, Repr

/-- The comparison predicates of `compileBinaryExpression`. -/
inductive CmpOp where
  | eq | ne | slt | sle | sgt | sge
deriving DecidableEq, Repr

/-- The instructions `compiler.cpp` can emit — the image of its `IRBuilder`
calls.  No branch instruction appears: the source never calls `CreateBr` or
`CreateCondBr`. -/
inductive Instr where
  | arith (id : Nat) (op : ArithOp) (l r : LVal)
  | icmp (id : Nat) (op : CmpOp) (l r : LVal)
  | neg (id : Nat) (v : LVal)
  | bnot (id : Nat) (v : LVal)
  | alloca (id : Nat) (ty : LTy) (vname : List Char)
  | store (v : LVal) (slot : LVal)
  | load (id : Nat) (ty : LTy) (slot : LVal)
  | callIns (id : Nat) (callee : LVal) (args : List LVal)
  | retIns (v : Option LVal)
  | retVoidIns
deriving DecidableEq, Repr

/-- One `llvm::Function` with its entry block's instruction list (the only
block this compiler ever creates per function). -/
structure FuncIR where
  fname : List Char
  nParams : Nat
  body : List Instr
deriving DecidableEq, Repr

/-- The compiler state: the fresh-id counter, the module's functions in
creation order, the builder's insertion function, the `currentFunction` /
`currentBlock` members set by `createMainFunction` (never updated
afterwards), and the member `std::map<std::string, llvm::Value*> variables`
(name-keyed lookup; per-entry order is immaterial to `find`/`operator[]`;
the member is named `varTable` here because `variables` is reserved). -/
structure CState where
  nextId : Nat
  funcs : List FuncIR
  insertIdx : Nat
  mainIdx : Nat
  varTable : List (List Char × LVal)
deriving DecidableEq, Repr

/-- Append an instruction at the insertion point. -/
def emitAt (st : CState) (i : Instr) : CState :=
  match st.funcs.get? st.insertIdx with
  | some f => { st with funcs := st.funcs.set st.insertIdx { f with body := f.body ++ [i] } }
  | none => st

/-- Emit a value-producing instruction, returning the fresh result value. -/
def emitVal (st : CState) (mk : Nat → Instr) (ty : LTy) : LVal × CState :=
  (LVal.instr st.nextId ty, emitAt { st with nextId := st.nextId + 1 } (mk st.nextId))

/-- `variables.find(name)`. -/
def lookupVar (name : List Char) (st : CState) : Option LVal :=
  st.varTable.lookup name

/-- `variables[name] = v` (insert or overwrite). -/
def setVar (name : List Char) (v : LVal) (st : CState) : CState :=
  { st with varTable := (name, v) :: st.varTable.filter (fun kv => !(kv.1 = name)) }

mutual

/-- `Compiler::compileExpression` with the `dynamic_cast` dispatch chain of
the source: literals, identifiers, binary, unary and call expressions;
every other node kind falls off the chain and yields `nullptr` (`none`)
without lowering its children.  The `Nat` argument is the recursion budget
(C++ recursion is unbounded); the budgets used below are never exhausted. -/
def compileExpression : Nat → Expr → CState → Option LVal × CState
  | 0, _, st => (none, st)
  | fuel + 1, e, st =>
    match e with
    | .literalInt n => (some (.constInt .i64 n), st)
    | .literalFloat raw => (some (.constFP raw), st)
    | .literalBool b => (some (.constInt .i1 (if b then 1 else 0)), st)
    | .literalStr s => (some (.globalStr s), st)
    | .literalNone => (some (.constInt .i32 0), st)
    | .identE name =>
      match lookupVar name st with
      | some slot =>
        let (v, st1) := emitVal st (fun id => .load id .i64 slot) .i64
        (some v, st1)
      | none => (some (.constInt .i64 0), st)
    | .binary op l r =>
      let (lv, st1) := compileExpression fuel l st
      let (rv, st2) := compileExpression fuel r st1
      match lv, rv with
      | some a, some b =>
        (match op with
         | .ADD =>
           let (v, st3) := emitVal st2 (fun id => .arith id .add a b) a.tyOf
           (some v, st3)
         | .SUBTRACT =>
           let (v, st3) := emitVal st2 (fun id => .arith id .sub a b) a.tyOf
           (some v, st3)
         | .MULTIPLY =>
           let (v, st3) := emitVal st2 (fun id => .arith id .mul a b) a.tyOf
           (some v, st3)
         | .DIVIDE =>
           let (v, st3) := emitVal st2 (fun id => .arith id .sdiv a b) a.tyOf
           (some v, st3)
         | .MODULO =>
           let (v, st3) := emitVal st2 (fun id => .arith id .srem a b) a.tyOf
           (some v, st3)
         | .EQUAL =>
           let (v, st3) := emitVal st2 (fun id => .icmp id .eq a b) .i1
           (some v, st3)
         | .NOT_EQUAL =>
           let (v, st3) := emitVal st2 (fun id => .icmp id .ne a b) .i1
           (some v, st3)
         | .LESS =>
           let (v, st3) := emitVal st2 (fun id => .icmp id .slt a b) .i1
           (some v, st3)
         | .LESS_EQUAL =>
           let (v, st3) := emitVal st2 (fun id => .icmp id .sle a b) .i1
           (some v, st3)
         | .GREATER =>
           let (v, st3) := emitVal st2 (fun id => .icmp id .sgt a b) .i1
           (some v, st3)
         | .GREATER_EQUAL =>
           let (v, st3) := emitVal st2 (fun id => .icmp id .sge a b) .i1
           (some v, st3)
         -- the switch of `compileBinaryExpression` has no FLOOR_DIVIDE,
         -- POWER, AND or OR case: `default: return nullptr;`
         | .FLOOR_DIVIDE => (none, st2)
         | .POWER => (none, st2)
         | .AND => (none, st2)
         | .OR => (none, st2))
      | _, _ => (none, st2)
    | .unaryE op o =>
      let (ov, st1) := compileExpression fuel o st
      match ov with
      | none => (none, st1)
      | some a =>
        match op with
        | .PLUS => (some a, st1)
        | .MINUS =>
          let (v, st2) := emitVal st1 (fun id => .neg id a) a.tyOf
          (some v, st2)
        | .NOT =>
          let (v, st2) := emitVal st1 (fun id => .bnot id a) a.tyOf
          (some v, st2)
    | .call callee args =>
      let (cv, st1) := compileExpression fuel callee st
      match cv with
      | none => (none, st1)
      | some cvv =>
        let (argVals, st2) := compileArgs fuel args st1
        let (v, st3) := emitVal st2 (fun id => .callIns id cvv argVals) .i64
        (some v, st3)
    | .attribute _ _ => (none, st)
    | .subscript _ _ => (none, st)
    | .listE _ => (none, st)
    | .dictE _ => (none, st)
    | .tupleE _ => (none, st)

/-- The argument loop of `compileCallExpression`: arguments whose lowering
yields `nullptr` are silently skipped (`if (compiledArg) args.push_back`). -/
def compileArgs : Nat → List Expr → CState → List LVal × CState
  | 0, _, st => ([], st)
  | _fuel + 1, [], st => ([], st)
  | fuel + 1, e :: rest, st =>
    let (v, st1) := compileExpression fuel e st
    let (vs, st2) := compileArgs fuel rest st1
    (match v with
     | some x => x :: vs
     | none => vs, st2)

end

/-- `BasicBlock::getTerminator()` as observable here: the only terminators
this compiler creates are returns, and the builder only appends. -/
def hasTerminator (body : List Instr) : Bool :=
  match body.getLast? with
  | some (.retIns _) => true
  | some .retVoidIns => true
  | _ => false

/-- The entry-block instruction list of function `idx`. -/
def bodyOf (st : CState) (idx : Nat) : List Instr :=
  match st.funcs.get? idx with
  | some f => f.body
  | none => []

/-- `Compiler::compileStatement` with the source's `dynamic_cast` chain:
assignment, expression statement, return; the `if`/`while`/`for` cases
dispatch to empty stubs, and `match` statements are not in the chain at
all — each leaves the state unchanged. -/
def compileStatement (fuel : Nat) (st : CState) (s : Stmt) : CState :=
  match s with
  | .assign name value =>
    let (v, st1) := compileExpression fuel value st
    match v with
    | none => st1
    | some vv =>
      match lookupVar name st1 with
      | some slot => emitAt st1 (.store vv slot)
      | none =>
        let (slot, st2) := emitVal st1 (fun id => .alloca id vv.tyOf name) .ptr
        let st3 := emitAt st2 (.store vv slot)
        setVar name slot st3
  | .exprStmt e => (compileExpression fuel e st).2
  | .ret v =>
    match v with
    | some e =>
      let (vv, st1) := compileExpression fuel e st
      emitAt st1 (.retIns vv)
    | none => emitAt st (.retVoidIns)
  | .ifS _ _ => st
  | .whileS _ _ => st
  | .forS _ _ _ => st
  | .matchS _ _ => st

/-- The parameter set-up loop of `compileFunctionDeclaration`: one `i64`
stack slot per parameter, the argument stored into it, and the slot recorded
in `variables`. -/
def storeParams (fIdx : Nat) (idx : Nat) (params : List (List Char)) (st : CState) : CState :=
  match params with
  | [] => st
  | pname :: rest =>
    let (slot, st1) := emitVal st (fun id => .alloca id .i64 pname) .ptr
    let st2 := emitAt st1 (.store (.arg fIdx idx) slot)
    let st3 := setVar pname slot st2
    storeParams fIdx (idx + 1) rest st3

/-- `Compiler::compileFunctionDeclaration`: create the function, move the
insertion point to its entry block, store the parameters, lower the body with
the member `variables` map AS IS (nothing clears or saves it), and append
`ret i64 0` if the entry block lacks a terminator. -/
def compileFunctionDeclaration (fuel : Nat) (st : CState)
    (name : List Char) (params : List (List Char)) (body : List Stmt) : CState :=
  let newIdx := st.funcs.length
  let st1 : CState :=
    { st with funcs := st.funcs ++ [⟨name, params.length, []⟩], insertIdx := newIdx }
  let st2 := storeParams newIdx 0 params st1
  let st3 := body.foldl (compileStatement fuel) st2
  if !hasTerminator (bodyOf st3 newIdx) then
    emitAt st3 (.retIns (some (.constInt .i64 0)))
  else st3

/-- `Compiler::compileDeclaration`: functions are lowered, class
declarations hit an empty stub, import declarations are not in the
`dynamic_cast` chain — both leave the state unchanged. -/
def compileDeclaration (fuel : Nat) (st : CState) (d : Decl) : CState :=
  match d with
  | .funcD name params body _ => compileFunctionDeclaration fuel st name params body
  | .classD _ _ _ => st
  | .importD _ _ => st

/-- `Compiler::setupStandardLibrary`: declare variadic `printf`. -/
def setupStandardLibrary (st : CState) : CState :=
  { st with funcs := st.funcs ++ [⟨"printf".toList, 1, []⟩] }

/-- `Compiler::createMainFunction`: create `main`, point the builder at its
entry block and record it as `currentFunction`/`currentBlock`. -/
def createMainFunction (st : CState) : CState :=
  let idx := st.funcs.length
  { st with
    funcs := st.funcs ++ [⟨"main".toList, 0, []⟩]
    insertIdx := idx
    mainIdx := idx }

/-- The fresh `Compiler()` state. -/
def initCState : CState :=
  ⟨0, [], 0, 0, []⟩

/-- `Compiler::compile(program)` up to the `llvm::verifyModule` call:
standard library, `main`, all declarations, then the top-level statements
(at whatever insertion point the last declaration left behind), then the
final `ret i32 0` if `currentBlock` — main's entry — has no terminator. -/
def compileModule (fuel : Nat) (prog : Program) : CState :=
  let st := setupStandardLibrary initCState
  let st := createMainFunction st
  let st := prog.declarations.foldl (compileDeclaration fuel) st
  let st := prog.statements.foldl (compileStatement fuel) st
  if !hasTerminator (bodyOf st st.mainIdx) then
    emitAt st (.retIns (some (.constInt .i32 0)))
  else st

end Compiler

/-! ## Derived observations used by the theorems -/

/-- The specified indentation-stack invariant (§3 of the design): never
empty, base level 0 at the bottom, strictly increasing from bottom to top.
In this embedding the stack top is the list head, so "strictly increasing
bottom to top" reads "each element exceeds its successor". -/
def IndentInv (s : List Nat) : Prop :=
  s ≠ [] ∧ s.getLast? = some 0 ∧ List.Chain' (fun a b => b < a) s

/-- The token list of a successfully tokenized source (empty on a lexical
error or an exhausted budget; the theorems that use it also pin down the
surrounding `tokenize` result). -/
def toksOf (src : List Char) : List Token :=
  match tokenize src with
  | some (.ok ts) => ts
  | _ => []

/-! ## Claim theorems: the parser claims C1, C3, C4 -/

/-- C1: the claim says call/attribute/subscript expressions are parsed by a
postfix chain between `unary` and `primary`, that `f(4)` parses to a call
node, and that the end-to-end `def f`/`result = f(4)` source compiles.  On
the code this fails: `Parser::unary` falls through to `primary()` directly,
so the postfix chain `Parser::call`/`finishCall` is dead code.  Parsing the
expression `f(4)` consumes only the identifier and yields `Identifier f`
(position 1 of 5), while the dead `Parser::call` would have produced the
claimed call node; and the end-to-end source fails to parse altogether
(`block()` does not skip the INDENT token, so the function body dies with
"Expect expression."). -/
theorem pulse_c1_postfix_chain_dead :
    tokenize "f(4)".toList = some (Except.ok (toksOf "f(4)".toList)) ∧
    Parser.expression 100 ⟨toksOf "f(4)".toList, 0⟩ =
      PRes.ok (Expr.identE ['f']) ⟨toksOf "f(4)".toList, 1⟩ ∧
    Parser.callChain 100 ⟨toksOf "f(4)".toList, 0⟩ =
      PRes.ok (Expr.call (Expr.identE ['f']) [Expr.literalInt 4]) ⟨toksOf "f(4)".toList, 4⟩ ∧
    tokenize "def f(n):\n    return n + 1\nresult = f(4)".toList =
      some (Except.ok (toksOf "def f(n):\n    return n + 1\nresult = f(4)".toList)) ∧
    Parser.program 1000 ⟨toksOf "def f(n):\n    return n + 1\nresult = f(4)".toList, 0⟩ =
      PRes.fail "Error at line 2, column 0: Expect expression." :=
  ⟨rfl, rfl, rfl, rfl, rfl⟩

/-- C2: the claim says every popped indentation level reaches the consumer
as its own DEDENT token (buffered across `nextToken` calls).  On the code
this fails: `handleIndentation` pops the whole stack at once, builds one
token per popped level, but returns only `dedent_tokens[0]` and discards the
rest — nothing is buffered.  On a source that indents twice and then drops
straight back to column 0, the token stream carries two INDENT tokens but
only ONE DEDENT. -/
theorem pulse_c2_multiple_dedents_lost :
    tokenize "if x:\n    if y:\n        a = 1\nb = 2".toList =
      some (Except.ok (toksOf "if x:\n    if y:\n        a = 1\nb = 2".toList)) ∧
    (toksOf "if x:\n    if y:\n        a = 1\nb = 2".toList).countP
        (fun t => decide (t.type = TokenType.INDENT)) = 2 ∧
    (toksOf "if x:\n    if y:\n        a = 1\nb = 2".toList).countP
        (fun t => decide (t.type = TokenType.DEDENT)) = 1 :=
  ⟨rfl, rfl, rfl⟩

/-- C3: the claim says the `if a: … elif b: … else: …` source parses to one
if node with two branches and an else body.  On the code the parse fails at
the very first condition: `Parser::ifStatement` calls
`consume(COLON, "Expect ':' after if condition.")` BEFORE parsing the
condition (and likewise for each `elif`), so the identifier `a` (line 1,
column 3) is rejected where the colon is demanded. -/
theorem pulse_c3_if_header_parse_fails :
    tokenize "if a: x = 1\nelif b: x = 2\nelse: x = 3".toList =
      some (Except.ok (toksOf "if a: x = 1\nelif b: x = 2\nelse: x = 3".toList)) ∧
    Parser.program 1000 ⟨toksOf "if a: x = 1\nelif b: x = 2\nelse: x = 3".toList, 0⟩ =
      PRes.fail "Error at line 1, column 3: Expect ':' after if condition." :=
  ⟨rfl, rfl⟩

/-- C4: the claim's first half holds (`2 + 3 * 4` parses to
`Add(2, Multiply(3, 4))`), but its second half fails: `Parser::power` folds
`**` with a `while` loop exactly like the left-associative levels, so
`2 ** 3 ** 2` parses to `Power(Power(2, 3), 2)`, not to the claimed
right-associated `Power(2, Power(3, 2))`. -/
theorem pulse_c4_power_parses_left_associative :
    tokenize "2 + 3 * 4".toList = some (Except.ok (toksOf "2 + 3 * 4".toList)) ∧
    Parser.expression 100 ⟨toksOf "2 + 3 * 4".toList, 0⟩ =
      PRes.ok (Expr.binary .ADD (Expr.literalInt 2)
        (Expr.binary .MULTIPLY (Expr.literalInt 3) (Expr.literalInt 4)))
        ⟨toksOf "2 + 3 * 4".toList, 5⟩ ∧
    tokenize "2 ** 3 ** 2".toList = some (Except.ok (toksOf "2 ** 3 ** 2".toList)) ∧
    Parser.expression 100 ⟨toksOf "2 ** 3 ** 2".toList, 0⟩ =
      PRes.ok (Expr.binary .POWER
        (Expr.binary .POWER (Expr.literalInt 2) (Expr.literalInt 3))
        (Expr.literalInt 2))
        ⟨toksOf "2 ** 3 ** 2".toList, 5⟩ :=
  ⟨rfl, rfl, rfl, rfl⟩

/-! ## Claim theorems: the code-generator claims C5, C6, C7 -/

/-- C5: the claim says `and`/`or` are lowered to short-circuit control flow
(evaluate left, branch, maybe evaluate right).  On the code this fails:
the switch of `compileBinaryExpression` has no AND/OR case at all, so both
operators hit `default: return nullptr` — compiling `true and false` (or
`or`) emits nothing whatsoever (the state is unchanged: no instruction, let
alone a branch) and yields a null value. -/
theorem pulse_c5_and_or_lowered_to_null :
    Compiler.compileExpression 10
        (Expr.binary .AND (Expr.literalBool true) (Expr.literalBool false))
        (Compiler.createMainFunction (Compiler.setupStandardLibrary Compiler.initCState)) =
      (none, Compiler.createMainFunction (Compiler.setupStandardLibrary Compiler.initCState)) ∧
    Compiler.compileExpression 10
        (Expr.binary .OR (Expr.literalBool true) (Expr.literalBool false))
        (Compiler.createMainFunction (Compiler.setupStandardLibrary Compiler.initCState)) =
      (none, Compiler.createMainFunction (Compiler.setupStandardLibrary Compiler.initCState)) :=
  ⟨rfl, rfl⟩

/-- C6: the claim says a call's callee is resolved by name to a known
function, its arity checked, and any failure reported as a code-generation
error.  On the code this fails: `compileCallExpression` lowers the callee as
an ordinary expression — the unknown identifier `f` resolves to the
default constant `i64 0`, not to a function — and emits a call through that
constant with whatever arguments compiled, checking nothing and raising no
error (the lowering has no error path at all). -/
theorem pulse_c6_call_unresolved_unchecked :
    Compiler.compileExpression 10 (Expr.call (Expr.identE ['f']) [Expr.literalInt 4])
        (Compiler.createMainFunction (Compiler.setupStandardLibrary Compiler.initCState)) =
      (some (Compiler.LVal.instr 0 .i64),
       ⟨1,
        [⟨"printf".toList, 1, []⟩,
         ⟨"main".toList, 0, [.callIns 0 (.constInt .i64 0) [.constInt .i64 4]]⟩],
        1, 1, []⟩) :=
  rfl

/-- C7: the claim says each function body is lowered in a fresh symbol-table
scope.  On the code this fails: the member map `variables` is never cleared
or saved, so after lowering `def g(): m = 1`, lowering `def h(): m = 2`
still sees `m` bound — `h`'s store writes into the stack slot
(instruction 0) allocated inside `g`'s entry block, and `h` allocates no
slot of its own.  (The final `main` terminator check then appends its
`ret i32 0` into `h` as well, because the builder's insertion point was
never restored.) -/
theorem pulse_c7_symbol_table_leaks_across_functions :
    Compiler.compileModule 10
      ⟨[Decl.funcD ['g'] [] [Stmt.assign ['m'] (Expr.literalInt 1)] false,
        Decl.funcD ['h'] [] [Stmt.assign ['m'] (Expr.literalInt 2)] false], []⟩ =
      ⟨1,
       [⟨"printf".toList, 1, []⟩,
        ⟨"main".toList, 0, []⟩,
        ⟨['g'], 0,
         [Compiler.Instr.alloca 0 .i64 ['m'],
          Compiler.Instr.store (Compiler.LVal.constInt .i64 1) (Compiler.LVal.instr 0 .ptr),
          Compiler.Instr.retIns (some (Compiler.LVal.constInt .i64 0))]⟩,
        ⟨['h'], 0,
         [Compiler.Instr.store (Compiler.LVal.constInt .i64 2) (Compiler.LVal.instr 0 .ptr),
          Compiler.Instr.retIns (some (Compiler.LVal.constInt .i64 0)),
          Compiler.Instr.retIns (some (Compiler.LVal.constInt .i32 0))]⟩],
       3, 1,
       [(['m'], Compiler.LVal.instr 0 .ptr)]⟩ :=
  rfl

/-! ## Helper lemmas for the tokenizer theorems (C8, C9, C10) -/


theorem advance_source (st : TokState) : st.advance.source = st.source := by
  unfold TokState.advance; split <;> rfl

theorem advance_start (st : TokState) : st.advance.start = st.start := by
  unfold TokState.advance; split <;> rfl

theorem advance_stack (st : TokState) : st.advance.indent_stack = st.indent_stack := by
  unfold TokState.advance; split <;> rfl

theorem advance_current_le (st : TokState) : st.current ≤ st.advance.current := by
  unfold TokState.advance
  split
  · exact Nat.le_refl _
  · exact Nat.le_succ _

theorem advance_current_of_lt (st : TokState) (h : st.current < st.source.length) :
    st.advance.current = st.current + 1 := by
  unfold TokState.advance
  rw [if_neg]
  · simp [TokState.isAtEnd]
    omega

theorem advanceN_source (n : Nat) (st : TokState) : (advanceN n st).source = st.source := by
  induction n generalizing st with
  | zero => rfl
  | succ n ih => rw [advanceN, ih, advance_source]

theorem advanceN_start (n : Nat) (st : TokState) : (advanceN n st).start = st.start := by
  induction n generalizing st with
  | zero => rfl
  | succ n ih => rw [advanceN, ih, advance_start]

theorem advanceN_stack (n : Nat) (st : TokState) :
    (advanceN n st).indent_stack = st.indent_stack := by
  induction n generalizing st with
  | zero => rfl
  | succ n ih => rw [advanceN, ih, advance_stack]

theorem advanceN_current_le (n : Nat) (st : TokState) :
    st.current ≤ (advanceN n st).current := by
  induction n generalizing st with
  | zero => exact Nat.le_refl _
  | succ n ih => exact Nat.le_trans (advance_current_le st) (ih st.advance)

theorem advanceN_current_of_le (n : Nat) (st : TokState)
    (h : st.current + n ≤ st.source.length) :
    (advanceN n st).current = st.current + n := by
  induction n generalizing st with
  | zero => rfl
  | succ n ih =>
    rw [advanceN]
    have h1 : st.current < st.source.length := by omega
    have h2 := advance_current_of_lt st h1
    rw [ih st.advance (by rw [h2, advance_source]; omega), h2]
    omega

theorem takeWhileLengthLe (p : α → Bool) (l : List α) :
    (l.takeWhile p).length ≤ l.length := by
  induction l with
  | nil => simp
  | cons a t ih =>
    by_cases h : p a
    · simpa [List.takeWhile_cons, h] using Nat.succ_le_succ ih
    · simp [List.takeWhile_cons, h]

theorem advanceWhile_source (p : Char → Bool) (st : TokState) :
    (advanceWhile p st).source = st.source := advanceN_source _ st

theorem advanceWhile_start (p : Char → Bool) (st : TokState) :
    (advanceWhile p st).start = st.start := advanceN_start _ st

theorem advanceWhile_stack (p : Char → Bool) (st : TokState) :
    (advanceWhile p st).indent_stack = st.indent_stack := advanceN_stack _ st

theorem advanceWhile_current_le (p : Char → Bool) (st : TokState) :
    st.current ≤ (advanceWhile p st).current := advanceN_current_le _ st

theorem match1_source (c : Char) (st : TokState) : (st.match1 c).source = st.source := by
  unfold TokState.match1; split <;> rfl

theorem match1_start (c : Char) (st : TokState) : (st.match1 c).start = st.start := by
  unfold TokState.match1; split <;> rfl

theorem match1_stack (c : Char) (st : TokState) :
    (st.match1 c).indent_stack = st.indent_stack := by
  unfold TokState.match1; split <;> rfl

theorem match1_current_le (c : Char) (st : TokState) : st.current ≤ (st.match1 c).current := by
  unfold TokState.match1
  split
  · exact Nat.le_succ _
  · exact Nat.le_refl _

theorem dropGetDCons (l : List α) (n : Nat) (h : n < l.length) (d : α) :
    l.drop n = l.getD n d :: l.drop (n + 1) := by
  rw [List.getD_eq_getElem _ _ h]
  exact List.drop_eq_getElem_cons h

theorem getD_drop (l : List α) (n i : Nat) (d : α) :
    (l.drop n).getD i d = l.getD (n + i) d := by
  simp [List.getD_eq_getD_get?, List.getElem?_drop]

theorem advanceWhile_current_succ (p : Char → Bool) (st : TokState)
    (hc : st.current < st.source.length) (hp : p st.peek) :
    st.current + 1 ≤ (advanceWhile p st).current := by
  unfold advanceWhile
  rw [dropGetDCons st.source st.current hc '\x00', List.takeWhile_cons]
  have hp2 : p (st.source.getD st.current '\x00') = true := hp
  rw [hp2]
  simp only [List.length_cons]
  show st.current + 1 ≤ (advanceN (((st.source.drop (st.current + 1)).takeWhile p).length + 1) st).current
  rw [advanceN]
  calc st.current + 1 = st.advance.current := (advance_current_of_lt st hc).symm
    _ ≤ _ := advanceN_current_le _ _

theorem stringSpan_le (quote : Char) (l : List Char) : stringSpan quote l ≤ l.length := by
  induction l using stringSpan.induct quote with
  | case1 => simp [stringSpan.eq_def]
  | case2 rest2 => simp [stringSpan.eq_def]
  | case3 h => simp [stringSpan.eq_def, h]
  | case4 head rest2 h ih =>
    rw [stringSpan.eq_def]
    simp only [List.length_cons]
    simp [h]
    omega
  | case5 head rest2 h1 h2 ih =>
    rw [stringSpan.eq_def]
    simp only [List.length_cons]
    simp [h1, h2]
    omega

theorem stringSpan_get (quote : Char) (l : List Char)
    (h : stringSpan quote l < l.length) :
    l.getD (stringSpan quote l) '\x00' = quote := by
  induction l using stringSpan.induct quote with
  | case1 => simp [stringSpan.eq_def] at h
  | case2 rest2 => rw [stringSpan.eq_def]; simp
  | case3 hq => rw [stringSpan.eq_def] at h; simp [hq] at h
  | case4 head rest2 hq ih =>
    rw [stringSpan.eq_def] at h ⊢
    simp only [List.length_cons] at h
    simp [hq] at h ⊢
    have h2 := ih (by omega)
    rw [Nat.add_comm 2 (stringSpan quote rest2)]
    simpa [List.getD_cons_succ] using h2
  | case5 head rest2 h1 h2 ih =>
    rw [stringSpan.eq_def] at h ⊢
    simp only [List.length_cons] at h
    simp [h1, h2] at h ⊢
    have h3 := ih (by omega)
    rw [Nat.add_comm 1 (stringSpan quote rest2)]
    simpa [List.getD_cons_succ] using h3


theorem scanString_ok_facts {st : TokState} {t : Token} {st' : TokState}
    (hc : st.current < st.source.length)
    (h : scanString st = .ok (t, st')) :
    st'.source = st.source ∧ st'.start = st.start ∧
    st'.indent_stack = st.indent_stack ∧ st.current + 1 ≤ st'.current ∧
    t.type = .STRING := by
  simp only [scanString] at h
  split at h
  · exact absurd h (by simp)
  · rw [Except.ok.injEq, Prod.mk.injEq] at h
    obtain ⟨ht, hs⟩ := h
    subst ht
    subst hs
    refine ⟨?_, ?_, ?_, ?_, rfl⟩
    · rw [advance_source, advanceN_source, advance_source]
    · rw [advance_start, advanceN_start, advance_start]
    · rw [advance_stack, advanceN_stack, advance_stack]
    · calc st.current + 1 = st.advance.current := (advance_current_of_lt st hc).symm
        _ ≤ (advanceN _ st.advance).current := advanceN_current_le _ _
        _ ≤ _ := advance_current_le _

theorem scanNumber_ok_facts {st : TokState} {t : Token} {st' : TokState}
    (h : scanNumber st = .ok (t, st')) :
    st'.source = st.source ∧ st'.start = st.start ∧
    st'.indent_stack = st.indent_stack ∧
    (advanceWhile isDigitC st).current ≤ st'.current ∧
    (t.type = .INTEGER ∨ t.type = .FLOAT) := by
  simp only [scanNumber] at h
  split at h
  · rw [Except.ok.injEq, Prod.mk.injEq] at h
    obtain ⟨ht, hs⟩ := h
    subst ht
    subst hs
    refine ⟨?_, ?_, ?_, ?_, Or.inr rfl⟩
    · rw [advanceWhile_source, advance_source, advanceWhile_source]
    · rw [advanceWhile_start, advance_start, advanceWhile_start]
    · rw [advanceWhile_stack, advance_stack, advanceWhile_stack]
    · calc (advanceWhile isDigitC st).current
          ≤ (advanceWhile isDigitC st).advance.current := advance_current_le _
        _ ≤ _ := advanceWhile_current_le _ _
  · split at h
    · rw [Except.ok.injEq, Prod.mk.injEq] at h
      obtain ⟨ht, hs⟩ := h
      subst ht
      subst hs
      exact ⟨advanceWhile_source _ _, advanceWhile_start _ _, advanceWhile_stack _ _,
        Nat.le_refl _, Or.inl rfl⟩
    · exact absurd h (by simp)

theorem keywordTypes :
    ∀ ty ∈ keywords.map Prod.snd, ¬ ty = TokenType.STRING ∧ ¬ ty = TokenType.EOF_TOKEN := by
  decide

theorem lookupSndMem {l : List (List Char × TokenType)} {k : List Char} {v : TokenType}
    (h : l.lookup k = some v) : v ∈ l.map Prod.snd := by
  induction l with
  | nil => simp [List.lookup] at h
  | cons a t ih =>
    rw [List.lookup] at h
    cases hk : (k == a.1) with
    | true =>
      rw [hk] at h
      simp only [Option.some.injEq] at h
      subst h
      exact List.mem_map_of_mem Prod.snd (List.mem_cons_self a t)
    | false =>
      rw [hk] at h
      exact List.mem_map.mpr (by
        obtain ⟨x, hx, hxv⟩ := List.mem_map.mp (ih h)
        exact ⟨x, List.mem_cons_of_mem a hx, hxv⟩)

theorem scanIdentifier_state (st : TokState) :
    (scanIdentifier st).2 = advanceWhile (fun c => isAlnumC c || c = '_') st := by
  simp only [scanIdentifier]
  split
  · rfl
  · split_ifs <;> rfl

theorem scanIdentifier_type (st : TokState) :
    ¬ (scanIdentifier st).1.type = TokenType.STRING ∧
    ¬ (scanIdentifier st).1.type = TokenType.EOF_TOKEN := by
  simp only [scanIdentifier]
  split
  · next ty hlook =>
    have := keywordTypes ty (lookupSndMem hlook)
    simpa [makeToken] using this
  · split_ifs <;> simp [makeToken]

theorem handleIndentation_ok_facts {st : TokState} {t : Token} {st' : TokState}
    (h : handleIndentation st = .ok (t, st')) :
    st'.source = st.source ∧ st'.current = st.current ∧ st'.start = st.start ∧
    ¬ t.type = TokenType.STRING ∧ ¬ t.type = TokenType.EOF_TOKEN := by
  simp only [handleIndentation] at h
  split at h
  · exact absurd h (by simp)
  · split at h
    · rw [Except.ok.injEq, Prod.mk.injEq] at h
      obtain ⟨ht, hs⟩ := h
      subst ht
      subst hs
      exact ⟨rfl, rfl, rfl, by simp, by simp⟩
    · split at h
      · split at h
        · exact absurd h (by simp)
        · rw [Except.ok.injEq, Prod.mk.injEq] at h
          obtain ⟨ht, hs⟩ := h
          subst ht
          subst hs
          exact ⟨rfl, rfl, rfl, by simp, by simp⟩
      · rw [Except.ok.injEq, Prod.mk.injEq] at h
        obtain ⟨ht, hs⟩ := h
        subst ht
        subst hs
        exact ⟨rfl, rfl, rfl, by simp, by simp⟩

theorem arithSwitch_ok_facts {c : Char} {st1 : TokState} {t : Token} {st' : TokState}
    (h : arithSwitch c st1 = .ok (t, st')) :
    st'.source = st1.source ∧ st'.start = st1.start ∧
    st'.indent_stack = st1.indent_stack ∧ st1.current ≤ st'.current ∧
    ¬ t.type = TokenType.STRING ∧ ¬ t.type = TokenType.EOF_TOKEN := by
  unfold arithSwitch at h
  repeat' split at h
  all_goals
    first
    | exact Except.noConfusion h
    | ((try dsimp only at h)
       rw [Except.ok.injEq, Prod.mk.injEq] at h
       obtain ⟨ht, hs⟩ := h
       subst ht
       subst hs
       refine ⟨?_, ?_, ?_, ?_, ?_, ?_⟩ <;>
         simp [makeToken, match1_source, match1_start, match1_stack, match1_current_le])

theorem cmpSwitch_ok_facts {c : Char} {st1 : TokState} {t : Token} {st' : TokState}
    (h : cmpSwitch c st1 = .ok (t, st')) :
    st'.source = st1.source ∧ st'.start = st1.start ∧
    st'.indent_stack = st1.indent_stack ∧ st1.current ≤ st'.current ∧
    ¬ t.type = TokenType.STRING ∧ ¬ t.type = TokenType.EOF_TOKEN := by
  unfold cmpSwitch at h
  repeat' split at h
  all_goals
    first
    | exact arithSwitch_ok_facts h
    | exact Except.noConfusion h
    | ((try dsimp only at h)
       rw [Except.ok.injEq, Prod.mk.injEq] at h
       obtain ⟨ht, hs⟩ := h
       subst ht
       subst hs
       refine ⟨?_, ?_, ?_, ?_, ?_, ?_⟩ <;>
         simp [makeToken, match1_source, match1_start, match1_stack, match1_current_le])

theorem operatorSwitch_ok_facts {c : Char} {st1 : TokState} {t : Token} {st' : TokState}
    (h : operatorSwitch c st1 = .ok (t, st')) :
    st'.source = st1.source ∧ st'.start = st1.start ∧
    st'.indent_stack = st1.indent_stack ∧ st1.current ≤ st'.current ∧
    ¬ t.type = TokenType.STRING ∧ ¬ t.type = TokenType.EOF_TOKEN := by
  unfold operatorSwitch at h
  repeat' split at h
  all_goals
    first
    | exact cmpSwitch_ok_facts h
    | exact Except.noConfusion h
    | ((try dsimp only at h)
       rw [Except.ok.injEq, Prod.mk.injEq] at h
       obtain ⟨ht, hs⟩ := h
       subst ht
       subst hs
       refine ⟨?_, ?_, ?_, ?_, ?_, ?_⟩ <;>
         simp [makeToken, match1_source, match1_start, match1_stack, match1_current_le])


theorem getLastQConsOfNeNil {l : List α} (a : α) (h : l ≠ []) :
    (a :: l).getLast? = l.getLast? := by
  cases l with
  | nil => exact absurd rfl h
  | cons b t => rfl

theorem skipWhitespace_source (st : TokState) :
    (skipWhitespace st).source = st.source := advanceWhile_source _ _

theorem skipWhitespace_stack (st : TokState) :
    (skipWhitespace st).indent_stack = st.indent_stack := advanceWhile_stack _ _

theorem skipWhitespace_current_le (st : TokState) :
    st.current ≤ (skipWhitespace st).current := advanceWhile_current_le _ _

theorem dropWhileSuffixI {α} {s : List α} {p : α → Bool} : s.dropWhile p <:+ s :=
  List.dropWhile_suffix p

theorem dropWhileLast {s : List Nat} {p : Nat → Bool}
    (hpne : s.dropWhile p ≠ []) (hlast : s.getLast? = some 0) :
    (s.dropWhile p).getLast? = some 0 := by
  obtain ⟨pre, hpre⟩ := dropWhileSuffixI (s := s) (p := p)
  have hap := List.getLast?_append_of_ne_nil pre hpne
  rw [hpre] at hap
  rw [← hap]
  exact hlast

theorem handleIndentation_inv {st : TokState} {t : Token} {st' : TokState}
    (hinv : IndentInv st.indent_stack) (h : handleIndentation st = .ok (t, st')) :
    IndentInv st'.indent_stack := by
  obtain ⟨hne, hlast, hchain⟩ := hinv
  simp only [handleIndentation] at h
  split at h
  · exact Except.noConfusion h
  · split at h
    · next hcond =>
      rw [Except.ok.injEq, Prod.mk.injEq] at h
      obtain ⟨ht, hs⟩ := h
      subst ht
      subst hs
      change IndentInv (_ :: st.indent_stack)
      refine ⟨by simp, ?_, ?_⟩
      · rw [getLastQConsOfNeNil _ hne]
        exact hlast
      · rcases hcond with hemp | hlt
        · exact absurd hemp hne
        · cases hstk : st.indent_stack with
          | nil => exact absurd hstk hne
          | cons x xs =>
            rw [hstk] at hlt hchain
            exact List.chain'_cons.mpr ⟨by simpa using hlt, hchain⟩
    · split at h
      · split at h
        · exact Except.noConfusion h
        · next hcheck =>
          rw [Except.ok.injEq, Prod.mk.injEq] at h
          obtain ⟨ht, hs⟩ := h
          subst ht
          subst hs
          rw [not_or, not_not] at hcheck
          obtain ⟨hpne, hphead⟩ := hcheck
          change IndentInv (st.indent_stack.dropWhile _)
          exact ⟨hpne, dropWhileLast hpne hlast, hchain.suffix dropWhileSuffixI⟩
      · rw [Except.ok.injEq, Prod.mk.injEq] at h
        obtain ⟨ht, hs⟩ := h
        subst ht
        subst hs
        exact ⟨hne, hlast, hchain⟩


theorem skipComment_source (st : TokState) :
    (skipComment st).source = st.source := advanceWhile_source _ _

theorem skipComment_stack (st : TokState) :
    (skipComment st).indent_stack = st.indent_stack := advanceWhile_stack _ _

theorem skipComment_current_le (st : TokState) :
    st.current ≤ (skipComment st).current := advanceWhile_current_le _ _

theorem nextToken_ok_facts {st0 : TokState} {t : Token} {st' : TokState}
    (h : nextToken st0 = .ok (t, st')) :
    st'.source = st0.source ∧
    (¬ t.type = TokenType.EOF_TOKEN →
      st0.current < st'.current ∧ st0.current < st0.source.length) ∧
    (IndentInv st0.indent_stack → IndentInv st'.indent_stack) := by
  simp only [nextToken] at h
  set sw := skipWhitespace st0 with hswdef
  have hsrc0 : sw.source = st0.source := skipWhitespace_source st0
  have hstk0 : sw.indent_stack = st0.indent_stack := skipWhitespace_stack st0
  have hle0 : st0.current ≤ sw.current := skipWhitespace_current_le st0
  split at h
  · rw [Except.ok.injEq, Prod.mk.injEq] at h
    obtain ⟨ht, hs⟩ := h
    subst ht
    subst hs
    refine ⟨hsrc0, ?_, ?_⟩
    · intro hne
      exact absurd rfl hne
    · intro hi
      rw [hstk0]
      exact hi
  · next hAtEnd =>
    have hlt : sw.current < sw.source.length := by
      simp [TokState.isAtEnd] at hAtEnd
      omega
    have hlt0 : st0.current < st0.source.length := by
      rw [← hsrc0]
      omega
    set stS : TokState := { sw with start := sw.current } with hstSdef
    set st1 := stS.advance with hst1def
    have hst1src : st1.source = sw.source := advance_source stS
    have hst1stk : st1.indent_stack = sw.indent_stack := advance_stack stS
    have hst1start : st1.start = sw.current := advance_start stS
    have hst1cur : st1.current = sw.current + 1 := advance_current_of_lt stS hlt
    split at h
    · -- newline
      obtain ⟨hsrc, hcur, _, _, _⟩ := handleIndentation_ok_facts h
      refine ⟨?_, ?_, ?_⟩
      · rw [hsrc, hst1src, hsrc0]
      · intro _
        constructor
        · omega
        · exact hlt0
      · intro hi
        refine handleIndentation_inv ?_ h
        rw [hst1stk, hstk0]
        exact hi
    · split at h
      · -- comment
        rw [Except.ok.injEq, Prod.mk.injEq] at h
        obtain ⟨ht, hs⟩ := h
        subst ht
        subst hs
        refine ⟨?_, ?_, ?_⟩
        · rw [skipComment_source, hst1src, hsrc0]
        · intro _
          have := skipComment_current_le st1
          constructor
          · omega
          · exact hlt0
        · intro hi
          rw [skipComment_stack, hst1stk, hstk0]
          exact hi
      · split at h
        · -- string
          have hc : ({ st1 with current := st1.start, column := st1.column - 1 } : TokState).current
              < ({ st1 with current := st1.start, column := st1.column - 1 } : TokState).source.length := by
            show st1.start < st1.source.length
            rw [hst1start, hst1src]
            exact hlt
          obtain ⟨hsrc, _, hstk, hcur, _⟩ := scanString_ok_facts hc h
          refine ⟨?_, ?_, ?_⟩
          · rw [hsrc]
            show st1.source = st0.source
            rw [hst1src, hsrc0]
          · intro _
            constructor
            · have h2 : st1.start + 1 ≤ st'.current := hcur
              omega
            · exact hlt0
          · intro hi
            rw [hstk]
            show IndentInv st1.indent_stack
            rw [hst1stk, hstk0]
            exact hi
        · split at h
          · -- number
            next hdig =>
            have hc : ({ st1 with current := st1.start, column := st1.column - 1 } : TokState).current
                < ({ st1 with current := st1.start, column := st1.column - 1 } : TokState).source.length := by
              show st1.start < st1.source.length
              rw [hst1start, hst1src]
              exact hlt
            have hpeekR : ({ st1 with current := st1.start, column := st1.column - 1 } : TokState).peek
                = stS.peek := by
              show st1.source.getD st1.start '\x00' = stS.source.getD stS.current '\x00'
              rw [hst1src, hst1start]
            obtain ⟨hsrc, _, hstk, hcur, _⟩ := scanNumber_ok_facts h
            have hstep2 : st1.start + 1 ≤ (advanceWhile isDigitC
                { st1 with current := st1.start, column := st1.column - 1 }).current :=
              advanceWhile_current_succ isDigitC
                { st1 with current := st1.start, column := st1.column - 1 } hc
                (by rw [hpeekR]; exact hdig)
            refine ⟨?_, ?_, ?_⟩
            · rw [hsrc]
              show st1.source = st0.source
              rw [hst1src, hsrc0]
            · intro _
              constructor
              · have h2 : st1.start + 1 ≤ st'.current := by omega
                omega
              · exact hlt0
            · intro hi
              rw [hstk]
              show IndentInv st1.indent_stack
              rw [hst1stk, hstk0]
              exact hi
          · split at h
            · -- identifier
              next halpha =>
              rw [Except.ok.injEq] at h
              have h1 := congrArg Prod.fst h
              have h2 := congrArg Prod.snd h
              simp only at h1 h2
              have hstate := scanIdentifier_state
                { st1 with current := st1.start, column := st1.column - 1 }
              rw [h2] at hstate
              have hc : ({ st1 with current := st1.start, column := st1.column - 1 } : TokState).current
                  < ({ st1 with current := st1.start, column := st1.column - 1 } : TokState).source.length := by
                show st1.start < st1.source.length
                rw [hst1start, hst1src]
                exact hlt
              have hpeekR : ({ st1 with current := st1.start, column := st1.column - 1 } : TokState).peek
                  = stS.peek := by
                show st1.source.getD st1.start '\x00' = stS.source.getD stS.current '\x00'
                rw [hst1src, hst1start]
              have hp : (fun c => isAlnumC c || c = '_')
                  (({ st1 with current := st1.start, column := st1.column - 1 } : TokState).peek) = true := by
                rw [hpeekR]
                rcases halpha with ha | hu
                · simp [isAlnumC, ha]
                · simp [hu]
              have hstep2 : st1.start + 1 ≤ (advanceWhile (fun c => isAlnumC c || c = '_')
                  { st1 with current := st1.start, column := st1.column - 1 }).current :=
                advanceWhile_current_succ (fun c => isAlnumC c || c = '_')
                  { st1 with current := st1.start, column := st1.column - 1 } hc hp
              refine ⟨?_, ?_, ?_⟩
              · rw [hstate, advanceWhile_source]
                show st1.source = st0.source
                rw [hst1src, hsrc0]
              · intro _
                constructor
                · rw [hstate]
                  omega
                · exact hlt0
              · intro hi
                rw [hstate, advanceWhile_stack]
                show IndentInv st1.indent_stack
                rw [hst1stk, hstk0]
                exact hi
            · -- operator switch
              obtain ⟨hsrc, _, hstk, hcur, _, _⟩ := operatorSwitch_ok_facts h
              refine ⟨?_, ?_, ?_⟩
              · rw [hsrc, hst1src, hsrc0]
              · intro _
                constructor
                · omega
                · exact hlt0
              · intro hi
                rw [hstk, hst1stk, hstk0]
                exact hi


theorem tokenizeN_isSome (fuel : Nat) (st : TokState)
    (h : st.source.length - st.current < fuel) :
    (tokenizeN fuel st).isSome = true := by
  induction fuel generalizing st with
  | zero => omega
  | succ fuel ih =>
    rw [tokenizeN]
    cases hnt : nextToken st with
    | error e => simp
    | ok pr =>
      obtain ⟨t, st1⟩ := pr
      dsimp only
      by_cases ht : t.type = TokenType.EOF_TOKEN
      · simp [ht]
      · obtain ⟨hsrc, hprog, _⟩ := nextToken_ok_facts hnt
        obtain ⟨hlt, hlt0⟩ := hprog ht
        have hrec := ih st1 (by rw [hsrc]; omega)
        rw [if_neg ht]
        cases hres : tokenizeN fuel st1 with
        | none => rw [hres] at hrec; simp at hrec
        | some r => cases r <;> simp

theorem tokenizeN_ok_eof (fuel : Nat) (st : TokState) (ts : List Token)
    (h : tokenizeN fuel st = some (.ok ts)) :
    ts.countP (fun u => decide (u.type = TokenType.EOF_TOKEN)) = 1 ∧
    ∃ u, ts.getLast? = some u ∧ u.type = TokenType.EOF_TOKEN := by
  induction fuel generalizing st ts with
  | zero => simp [tokenizeN] at h
  | succ fuel ih =>
    rw [tokenizeN] at h
    cases hnt : nextToken st with
    | error e => rw [hnt] at h; simp at h
    | ok pr =>
      obtain ⟨t, st1⟩ := pr
      rw [hnt] at h
      dsimp only at h
      by_cases ht : t.type = TokenType.EOF_TOKEN
      · rw [if_pos ht] at h
        simp only [Option.some.injEq, Except.ok.injEq] at h
        subst h
        refine ⟨by simp [List.countP_cons, ht], t, rfl, ht⟩
      · rw [if_neg ht] at h
        cases hres : tokenizeN fuel st1 with
        | none => rw [hres] at h; simp at h
        | some r =>
          cases r with
          | error e => rw [hres] at h; simp at h
          | ok ts1 =>
            rw [hres] at h
            simp only [Option.some.injEq, Except.ok.injEq] at h
            subst h
            obtain ⟨hcount, u, hlast, hu⟩ := ih st1 ts1 hres
            refine ⟨?_, u, ?_, hu⟩
            · simp [List.countP_cons, ht, hcount]
            · have hne : ts1 ≠ [] := by
                intro hnil
                rw [hnil] at hlast
                simp at hlast
              rw [getLastQConsOfNeNil t hne]
              exact hlast

/-- C8: for every source string the tokenizer's do-while loop terminates
within `length + 1` iterations (each non-final iteration consumes at least
one character), and whenever a token list is produced it holds exactly one
EOF token, sitting at the very end. -/
theorem pulse_c8_tokenize_terminates_single_eof (source : List Char) :
    (tokenize source).isSome = true ∧
    ∀ ts, tokenize source = some (Except.ok ts) →
      ts.countP (fun u => decide (u.type = TokenType.EOF_TOKEN)) = 1 ∧
      ∃ u, ts.getLast? = some u ∧ u.type = TokenType.EOF_TOKEN := by
  constructor
  · exact tokenizeN_isSome _ _ (by show source.length - 0 < source.length + 1; omega)
  · intro ts hts
    exact tokenizeN_ok_eof _ _ _ hts

theorem pulse_c8_witness :
    (tokenize "x = 1".toList).isSome = true ∧
    ((toksOf "x = 1".toList).countP (fun u => decide (u.type = TokenType.EOF_TOKEN)) = 1 ∧
      ∃ u, (toksOf "x = 1".toList).getLast? = some u ∧ u.type = TokenType.EOF_TOKEN) :=
  ⟨(pulse_c8_tokenize_terminates_single_eof "x = 1".toList).1,
   (pulse_c8_tokenize_terminates_single_eof "x = 1".toList).2 (toksOf "x = 1".toList) (by rfl)⟩

/-- C9: the indentation stack satisfies the specified invariant at every
point of tokenizing: it holds after construction (`[0]`), and every
`nextToken` call that returns normally preserves it — never empty, base
level 0 at the bottom (never popped), strictly increasing towards the top. -/
theorem pulse_c9_indent_stack_invariant :
    (∀ source : List Char, IndentInv (initTokenizer source).indent_stack) ∧
    ∀ (st : TokState) (t : Token) (st1 : TokState),
      IndentInv st.indent_stack → nextToken st = .ok (t, st1) →
      IndentInv st1.indent_stack := by
  constructor
  · intro source
    exact ⟨by simp [initTokenizer], rfl, by simp [initTokenizer]⟩
  · intro st t st1 hinv h
    exact (nextToken_ok_facts h).2.2 hinv

theorem pulse_c9_witness :
    IndentInv (initTokenizer "\n    x".toList).indent_stack ∧
    IndentInv ((⟨"\n    x".toList, 1, 0, 2, 0, [1, 0]⟩ : TokState)).indent_stack :=
  ⟨pulse_c9_indent_stack_invariant.1 "\n    x".toList,
   pulse_c9_indent_stack_invariant.2 (initTokenizer "\n    x".toList)
     ⟨.INDENT, [], .monostate, 2, 0⟩ ⟨"\n    x".toList, 1, 0, 2, 0, [1, 0]⟩
     (pulse_c9_indent_stack_invariant.1 "\n    x".toList) (by rfl)⟩


theorem scanString_ok_value {st : TokState} {t : Token} {st' : TokState}
    (hc : st.current < st.source.length) (hss : st.start = st.current)
    (h : scanString st = .ok (t, st')) :
    st'.source = st.source ∧ st'.start = st.start ∧
    st.source.getD st'.start '\x00' = st.peek ∧
    st.source.getD (st'.current - 1) '\x00' = st.peek ∧
    st'.start + 1 < st'.current ∧
    t.value = .str ((st.source.drop (st'.start + 1)).take (st'.current - st'.start - 2)) := by
  simp only [scanString] at h
  split at h
  · exact Except.noConfusion h
  · next hEnd =>
    rw [Except.ok.injEq, Prod.mk.injEq] at h
    obtain ⟨ht, hs⟩ := h
    subst ht
    subst hs
    have h1src : st.advance.source = st.source := advance_source st
    have h1cur : st.advance.current = st.current + 1 := advance_current_of_lt st hc
    have h1start : st.advance.start = st.start := advance_start st
    have hlen1 : st.advance.source.length = st.source.length := by rw [h1src]
    set n := stringSpan st.peek (st.advance.source.drop st.advance.current) with hn
    have hnle : n ≤ st.advance.source.length - st.advance.current := by
      calc n ≤ (st.advance.source.drop st.advance.current).length := stringSpan_le _ _
        _ = _ := by rw [List.length_drop]
    have h2cur : (advanceN n st.advance).current = st.advance.current + n :=
      advanceN_current_of_le n st.advance (by omega)
    have h2src : (advanceN n st.advance).source = st.advance.source := advanceN_source n _
    have h2start : (advanceN n st.advance).start = st.advance.start := advanceN_start n _
    have hlen2 : (advanceN n st.advance).source.length = st.advance.source.length := by
      rw [h2src]
    have hEnd2 : (advanceN n st.advance).current < (advanceN n st.advance).source.length := by
      simp [TokState.isAtEnd] at hEnd
      omega
    have h3cur : (advanceN n st.advance).advance.current
        = (advanceN n st.advance).current + 1 := advance_current_of_lt _ hEnd2
    have h3src : (advanceN n st.advance).advance.source = (advanceN n st.advance).source :=
      advance_source _
    have h3start : (advanceN n st.advance).advance.start = (advanceN n st.advance).start :=
      advance_start _
    have hclose : st.source.getD (st.advance.current + n) '\x00' = st.peek := by
      have hlt2 : n < (st.advance.source.drop st.advance.current).length := by
        rw [List.length_drop]
        omega
      have := stringSpan_get st.peek (st.advance.source.drop st.advance.current) hlt2
      rw [getD_drop] at this
      rw [← h1src]
      exact this
    refine ⟨?_, ?_, ?_, ?_, ?_, ?_⟩
    · rw [h3src, h2src, h1src]
    · rw [h3start, h2start, h1start]
    · rw [h3start, h2start, h1start, hss]
      rfl
    · rw [h3cur, h2cur]
      have : st.advance.current + n + 1 - 1 = st.advance.current + n := by omega
      rw [this]
      exact hclose
    · rw [h3cur, h2cur, h3start, h2start, h1start, h1cur, hss]
      omega
    · show TokenValue.str _ = TokenValue.str _
      rw [h3src, h2src, h1src]

/-- C10: a STRING token's stored value is exactly the raw source characters
strictly between the opening and the closing quote — the quotes stripped and
nothing translated (`source.substr(start + 1, current - start - 2)`): a
backslash and the character after it reach the value verbatim. -/
theorem pulse_c10_string_value_verbatim :
    ∀ (st : TokState) (t : Token) (st1 : TokState),
      nextToken st = .ok (t, st1) → t.type = TokenType.STRING →
      st1.source = st.source ∧
      ∃ q, (q = '"' ∨ q = '\'') ∧
        st.source.getD st1.start '\x00' = q ∧
        st.source.getD (st1.current - 1) '\x00' = q ∧
        st1.start + 1 < st1.current ∧
        t.value = .str ((st.source.drop (st1.start + 1)).take (st1.current - st1.start - 2)) := by
  intro st0 t st' h htype
  simp only [nextToken] at h
  set sw := skipWhitespace st0 with hswdef
  have hsrc0 : sw.source = st0.source := skipWhitespace_source st0
  have hle0 : st0.current ≤ sw.current := skipWhitespace_current_le st0
  split at h
  · rw [Except.ok.injEq, Prod.mk.injEq] at h
    obtain ⟨ht, hs⟩ := h
    subst ht
    simp at htype
  · next hAtEnd =>
    have hlt : sw.current < sw.source.length := by
      simp [TokState.isAtEnd] at hAtEnd
      omega
    set stS : TokState := { sw with start := sw.current } with hstSdef
    set st1 := stS.advance with hst1def
    have hst1src : st1.source = sw.source := advance_source stS
    have hst1start : st1.start = sw.current := advance_start stS
    split at h
    · obtain ⟨_, _, _, hnstr, _⟩ := handleIndentation_ok_facts h
      exact absurd htype hnstr
    · split at h
      · rw [Except.ok.injEq, Prod.mk.injEq] at h
        obtain ⟨ht, hs⟩ := h
        subst ht
        simp [makeToken] at htype
      · split at h
        · next hq =>
          have hc : ({ st1 with current := st1.start, column := st1.column - 1 } : TokState).current
              < ({ st1 with current := st1.start, column := st1.column - 1 } : TokState).source.length := by
            show st1.start < st1.source.length
            rw [hst1start, hst1src]
            exact hlt
          have hvals := scanString_ok_value hc rfl h
          obtain ⟨hsrcR, hstartR, hopen, hclose, hlen, hval⟩ := hvals
          have hpeekR : ({ st1 with current := st1.start, column := st1.column - 1 } : TokState).peek
              = stS.peek := by
            show st1.source.getD st1.start '\x00' = stS.source.getD stS.current '\x00'
            rw [hst1src, hst1start]
          have hsrcR2 : ({ st1 with current := st1.start, column := st1.column - 1 } : TokState).source
              = st0.source := by
            show st1.source = st0.source
            rw [hst1src, hsrc0]
          refine ⟨by rw [hsrcR, hsrcR2], stS.peek, hq, ?_, ?_, ?_, ?_⟩
          · rw [← hsrcR2, ← hpeekR]
            exact hopen
          · rw [← hsrcR2, ← hpeekR]
            exact hclose
          · have h2 : st'.start + 1 < st'.current := hlen
            have h3 : st'.start =
                ({ st1 with current := st1.start, column := st1.column - 1 } : TokState).start :=
              hstartR
            exact h2
          · rw [hval, hsrcR2]
        · split at h
          · obtain ⟨_, _, _, _, hty⟩ := scanNumber_ok_facts h
            rcases hty with h1 | h1 <;> rw [h1] at htype <;> exact absurd htype (by simp)
          · split at h
            · rw [Except.ok.injEq] at h
              have h1 := congrArg Prod.fst h
              simp only at h1
              have := (scanIdentifier_type
                { st1 with current := st1.start, column := st1.column - 1 }).1
              rw [h1] at this
              exact absurd htype this
            · obtain ⟨_, _, _, _, hnstr, _⟩ := operatorSwitch_ok_facts h
              exact absurd htype hnstr

theorem pulse_c10_witness :
    ((⟨"\"a\\nb\" x".toList, 6, 0, 1, 6, [0]⟩ : TokState)).source =
      (initTokenizer "\"a\\nb\" x".toList).source ∧
    ∃ q, (q = '"' ∨ q = '\'') ∧
      (initTokenizer "\"a\\nb\" x".toList).source.getD
        ((⟨"\"a\\nb\" x".toList, 6, 0, 1, 6, [0]⟩ : TokState)).start '\x00' = q ∧
      (initTokenizer "\"a\\nb\" x".toList).source.getD
        (((⟨"\"a\\nb\" x".toList, 6, 0, 1, 6, [0]⟩ : TokState)).current - 1) '\x00' = q ∧
      ((⟨"\"a\\nb\" x".toList, 6, 0, 1, 6, [0]⟩ : TokState)).start + 1 <
        ((⟨"\"a\\nb\" x".toList, 6, 0, 1, 6, [0]⟩ : TokState)).current ∧
      (Token.mk .STRING "\"a\\nb\"".toList (.str "a\\nb".toList) 1 0).value =
        .str (((initTokenizer "\"a\\nb\" x".toList).source.drop
          (((⟨"\"a\\nb\" x".toList, 6, 0, 1, 6, [0]⟩ : TokState)).start + 1)).take
          (((⟨"\"a\\nb\" x".toList, 6, 0, 1, 6, [0]⟩ : TokState)).current -
            ((⟨"\"a\\nb\" x".toList, 6, 0, 1, 6, [0]⟩ : TokState)).start - 2)) :=
  pulse_c10_string_value_verbatim (initTokenizer "\"a\\nb\" x".toList)
    (Token.mk .STRING "\"a\\nb\"".toList (.str "a\\nb".toList) 1 0)
    (⟨"\"a\\nb\" x".toList, 6, 0, 1, 6, [0]⟩ : TokState) (by rfl) rfl

end Pulse
